import Mathlib

/-!
Verification of the guard layer of the codesandbox-mcp-server gateway:
the request validator (`path-validator.ts`), the error/parameter sanitizer
(`middleware/error-handler.ts`), the rate limiter
(`services/rate-limiter.ts`) and the audit ledger (`services/audit-logger.ts`),
shallowly embedded in Lean.  Strings are modelled as Lean `String`/`List Char`
(the source only manipulates ASCII in the relevant code paths), JavaScript
numbers as `Nat`/`Int` (all quantities involved are integral and non-negative),
thrown exceptions as `Except`-valued results, and the mutable
`Map<string, RateLimitEntry>` as a function `String → Option RateLimitEntry`
threaded explicitly.
-/

/-! ## Basic string machinery (JS `String.prototype.includes` / `startsWith`) -/

/-- Does the list start with `sub`?  Mirrors the prefix test used by the JS
regexes anchored with `^` and by `String.prototype.startsWith`. -/
def leadsWith : List Char → List Char → Bool
  | [], _ => true
  | _ :: _, [] => false
  | a :: as, b :: bs => a == b && leadsWith as bs

/-- Does `sub` occur contiguously anywhere in the list?  Mirrors JS
`String.prototype.includes`. -/
def listHas (sub : List Char) : List Char → Bool
  | [] => sub.isEmpty
  | c :: t => leadsWith sub (c :: t) || listHas sub t

/-- JS `s.includes(sub)` on `String`s. -/
def strHas (s sub : String) : Bool := listHas sub.data s.data

/-- JS `s.startsWith(pre)` on `String`s (kernel-reducible model). -/
def strStarts (s pre : String) : Bool := leadsWith pre.data s.data

theorem leadsWith_iff (sub l : List Char) :
    leadsWith sub l = true ↔ ∃ t, l = sub ++ t := by
  induction sub generalizing l with
  | nil => simp [leadsWith]
  | cons a as ih =>
    cases l with
    | nil => simp [leadsWith]
    | cons b bs =>
      simp only [leadsWith, Bool.and_eq_true, beq_iff_eq, ih]
      constructor
      · rintro ⟨rfl, t, rfl⟩; exact ⟨t, rfl⟩
      · rintro ⟨t, h⟩
        injection h with h1 h2
        exact ⟨h1.symm, t, h2⟩

theorem listHas_iff (sub l : List Char) :
    listHas sub l = true ↔ ∃ p t, l = p ++ sub ++ t := by
  induction l with
  | nil =>
    simp only [listHas, List.isEmpty_iff]
    constructor
    · rintro rfl; exact ⟨[], [], rfl⟩
    · rintro ⟨p, t, h⟩
      rcases List.append_eq_nil.mp ((List.append_eq_nil).mp h.symm).1 with ⟨_, h2⟩
      exact h2
  | cons c t ih =>
    simp only [listHas, Bool.or_eq_true, leadsWith_iff, ih]
    constructor
    · rintro (⟨u, hu⟩ | ⟨p, u, hu⟩)
      · exact ⟨[], u, by simpa using hu⟩
      · exact ⟨c :: p, u, by simp [hu]⟩
    · rintro ⟨p, u, hu⟩
      cases p with
      | nil => exact Or.inl ⟨u, by simpa using hu⟩
      | cons x xs =>
        injection hu with h1 h2
        exact Or.inr ⟨xs, u, h2⟩

/-! ## The closed error-kind enum and `MCPError` (middleware/error-handler.ts) -/

inductive ErrorCode where
  | INVALID_REPO
  | SANDBOX_NOT_FOUND
  | GITHUB_AUTH_FAILED
  | RATE_LIMIT_EXCEEDED
  | INVALID_BRANCH
  | PATH_TRAVERSAL
  | TOKEN_EXPIRED
  | SANDBOX_TIMEOUT
  | FILE_SIZE_EXCEEDED
  | QUOTA_EXCEEDED
  | PERMISSION_DENIED
  | INTERNAL_ERROR
  | VALIDATION_ERROR
deriving DecidableEq

/-- The `MCPError` carried by a `throw`; thrown exceptions are modelled as the
`Except.error` branch of an `Except MCPError _` result. -/
structure MCPError where
  code : ErrorCode
  message : String
  statusCode : Nat
  retryable : Bool
deriving DecidableEq

/-- Extract the error of a failed `Except` (a placeholder error for `.ok`,
used only to state closed facts about results already known to be errors). -/
def errOf {α : Type} : Except MCPError α → MCPError
  | .error e => e
  | .ok _ => ⟨.INTERNAL_ERROR, "", 500, false⟩

/-! ## RequestValidator (services/path-validator.ts) -/

/-- The sixteen anchored forbidden path patterns (`FORBIDDEN_PATHS`); each
regex `/^lit/` is the test “starts with `lit`”. -/
def FORBIDDEN_PATHS : List String :=
  [".env", ".git", "node_modules", ".codesandbox",
   "/etc", "/root", "/proc", "/sys", "/var", "/usr", "/bin", "/sbin", "/boot",
   ".ssh", ".aws", ".config"]

/-- The regex `/^[a-zA-Z]:/` (Windows drive-letter path). -/
def driveLetterStart (p : String) : Bool :=
  match p.data with
  | c1 :: c2 :: _ => (('a' ≤ c1 && c1 ≤ 'z') || ('A' ≤ c1 && c1 ≤ 'Z')) && c2 == ':'
  | _ => false

/-- `validateFilePath` of path-validator.ts, translated clause by clause. -/
def validateFilePath (filePath : String) : Bool :=
  if strHas filePath ".." then false
  else if strStarts filePath "/" then false
  else if driveLetterStart filePath then false
  else if FORBIDDEN_PATHS.any (fun pat => strStarts filePath pat) then false
  else true

/-- `assertValidFilePath`: throws `PATH_TRAVERSAL` when the path is invalid. -/
def assertValidFilePath (filePath : String) : Except MCPError Unit :=
  if validateFilePath filePath then .ok ()
  else .error ⟨.PATH_TRAVERSAL, "Invalid or forbidden file path: " ++ filePath, 403, false⟩

/-- `validateBranchName` of path-validator.ts. -/
def validateBranchName (branchName : String) : Bool :=
  if !(branchName.data ≠ [] &&
       branchName.data.all (fun c =>
         ('a' ≤ c && c ≤ 'z') || ('A' ≤ c && c ≤ 'Z') || ('0' ≤ c && c ≤ '9') ||
         c == '.' || c == '_' || c == '/' || c == '-')) then false
  else if strHas branchName " " then false
  else if strHas branchName ".." then false
  else if strHas branchName "//" then false
  else true

/-- `assertValidBranchName`: throws `INVALID_BRANCH` when invalid. -/
def assertValidBranchName (branchName : String) : Except MCPError Unit :=
  if validateBranchName branchName then .ok ()
  else .error ⟨.INVALID_BRANCH, "Invalid branch name: " ++ branchName, 400, false⟩

/-- Property names of `Object.prototype` in JavaScript.  A
`Record<string, string>` built from an object literal (as `githubTokenMap`
is in services/config.ts, and the allowlists in the tests) inherits from
`Object.prototype`, and the `in` operator consults the whole prototype
chain, so `'toString' in {}` is `true`. -/
def objectPrototypeKeys : List String :=
  ["constructor", "hasOwnProperty", "isPrototypeOf", "propertyIsEnumerable",
   "toLocaleString", "toString", "valueOf", "__proto__",
   "__defineGetter__", "__defineSetter__", "__lookupGetter__", "__lookupSetter__"]

/-- The JS expression `key in obj` for a plain-object `Record<string, string>`
(own enumerable string keys plus the inherited `Object.prototype` names). -/
def jsIn (key : String) (obj : List (String × String)) : Bool :=
  obj.any (fun kv => kv.1 == key) || objectPrototypeKeys.contains key

/-- `validateRepoId` of path-validator.ts: `return repoId in allowedRepos`. -/
def validateRepoId (repoId : String) (allowedRepos : List (String × String)) : Bool :=
  jsIn repoId allowedRepos

/-- `assertValidRepoId`: throws `INVALID_REPO` when the repo is not allowed. -/
def assertValidRepoId (repoId : String) (allowedRepos : List (String × String)) :
    Except MCPError Unit :=
  if validateRepoId repoId allowedRepos then .ok ()
  else .error ⟨.INVALID_REPO, "Repository '" ++ repoId ++ "' is not in the allowed list", 403, false⟩

/-! ## RateLimiter (services/rate-limiter.ts) -/

/-- `RateLimitEntry`: the optional fields of the TS interface stay `Option`. -/
structure RateLimitEntry where
  count : Nat
  resetAt : Nat
  hourlyCount : Option Nat
  hourlyResetAt : Option Nat
  dailyExecutionMs : Option Nat
  dailyResetAt : Option Nat
deriving DecidableEq

inductive UserTier where
  | free
  | pro
deriving DecidableEq

structure QuotaLimits where
  sandboxesPerHour : Nat
  apiCallsPerMinute : Nat
  executionTimePerDay : Nat
deriving DecidableEq

/-- `QUOTA_TIERS` of rate-limiter.ts. -/
def QUOTA_TIERS : UserTier → QuotaLimits
  | .free => ⟨5, 10, 3600000⟩
  | .pro => ⟨100, 100, 86400000⟩

inductive Operation where
  | api_call
  | create_sandbox
deriving DecidableEq

def opString : Operation → String
  | .api_call => "api_call"
  | .create_sandbox => "create_sandbox"

/-- The `Map<string, RateLimitEntry>` held by the `RateLimiter` instance. -/
def RateLimits : Type := String → Option RateLimitEntry

def RateLimits.empty : RateLimits := fun _ => none

def RateLimits.set (m : RateLimits) (key : String) (e : RateLimitEntry) : RateLimits :=
  fun k => if k == key then some e else m k

/-- The fresh entry built by `checkLimit` when the entry is missing or its
minute window has expired. -/
def freshEntry (now : Nat) : RateLimitEntry :=
  { count := 0, resetAt := now + 60000,
    hourlyCount := some 0, hourlyResetAt := some (now + 3600000),
    dailyExecutionMs := some 0, dailyResetAt := some (now + 86400000) }

/-- `Math.ceil((a - b) / 1000)` for the non-negative differences that occur in
the throttle branches (ceiling division on `Nat`). -/
def ceilSeconds (a b : Nat) : Nat := (a - b + 999) / 1000

/-- `RateLimiter.checkLimit`, with `Date.now()` passed in as `now` and the
map threaded explicitly.  The returned map reflects the in-place mutations the
TS code performs on the shared entry object (they happen even when the call
then throws).  The truthiness guards `entry.hourlyResetAt && …` are kept
(`some 0` is falsy in JS); `entry.hourlyResetAt!` in the sandbox throttle
branch is modelled with `.getD 0` (the entry under a `create_sandbox` key
always has the field set). -/
def checkLimit (now : Nat) (userId : String) (tier : UserTier) (operation : Operation)
    (m : RateLimits) : RateLimits × Except MCPError Bool :=
  let key := userId ++ ":" ++ opString operation
  let limits := QUOTA_TIERS tier
  let e1 : RateLimitEntry :=
    match m key with
    | none => freshEntry now
    | some e => if now > e.resetAt then freshEntry now else e
  let e2 : RateLimitEntry :=
    match e1.hourlyResetAt with
    | some h =>
        if h ≠ 0 ∧ now > h then
          { e1 with hourlyCount := some 0, hourlyResetAt := some (now + 3600000) }
        else e1
    | none => e1
  let e3 : RateLimitEntry :=
    match e2.dailyResetAt with
    | some d =>
        if d ≠ 0 ∧ now > d then
          { e2 with dailyExecutionMs := some 0, dailyResetAt := some (now + 86400000) }
        else e2
    | none => e2
  match operation with
  | .api_call =>
      if e3.count ≥ limits.apiCallsPerMinute then
        let retryAfter := ceilSeconds e3.resetAt now
        (m.set key e3,
         .error ⟨.RATE_LIMIT_EXCEEDED,
                 "Rate limit exceeded. Try again in " ++ toString retryAfter ++ " seconds.",
                 429, true⟩)
      else
        (m.set key { e3 with count := e3.count + 1 }, .ok true)
  | .create_sandbox =>
      if e3.hourlyCount.getD 0 ≥ limits.sandboxesPerHour then
        let retryAfter := ceilSeconds (e3.hourlyResetAt.getD 0) now
        (m.set key e3,
         .error ⟨.QUOTA_EXCEEDED,
                 "Sandbox quota exceeded. Try again in " ++ toString retryAfter ++ " seconds.",
                 429, true⟩)
      else
        (m.set key { e3 with count := e3.count + 1,
                             hourlyCount := some (e3.hourlyCount.getD 0 + 1) },
         .ok true)

/-- `RateLimiter.recordExecutionTime`, same conventions as `checkLimit`;
`entry.dailyResetAt || 0` is `.getD 0`.  The counter update precedes the
quota check, and the updated entry is in the map even when the call throws. -/
def recordExecutionTime (now : Nat) (userId : String) (tier : UserTier)
    (executionTimeMs : Nat) (m : RateLimits) : RateLimits × Except MCPError Unit :=
  let key := userId ++ ":execution_time"
  let limits := QUOTA_TIERS tier
  let e1 : RateLimitEntry :=
    match m key with
    | none =>
        { count := 0, resetAt := now + 60000,
          hourlyCount := none, hourlyResetAt := none,
          dailyExecutionMs := some 0, dailyResetAt := some (now + 86400000) }
    | some e =>
        if now > e.dailyResetAt.getD 0 then
          { count := 0, resetAt := now + 60000,
            hourlyCount := none, hourlyResetAt := none,
            dailyExecutionMs := some 0, dailyResetAt := some (now + 86400000) }
        else e
  let e2 : RateLimitEntry :=
    { e1 with dailyExecutionMs := some (e1.dailyExecutionMs.getD 0 + executionTimeMs) }
  (m.set key e2,
   if e2.dailyExecutionMs.getD 0 > limits.executionTimePerDay then
     .error ⟨.QUOTA_EXCEEDED, "Daily execution time quota exceeded", 429, true⟩
   else .ok ())

/-- `RateLimiter.getUsageStats` (side-effect-free snapshot). -/
def getUsageStats (m : RateLimits) (userId : String) (tier : UserTier) :
    (Nat × Nat) × (Nat × Nat) × (Nat × Nat) :=
  let limits := QUOTA_TIERS tier
  let apiCallEntry := m (userId ++ ":api_call")
  let sandboxEntry := m (userId ++ ":create_sandbox")
  let executionEntry := m (userId ++ ":execution_time")
  (((apiCallEntry.map RateLimitEntry.count).getD 0, limits.apiCallsPerMinute),
   ((sandboxEntry.bind RateLimitEntry.hourlyCount).getD 0, limits.sandboxesPerHour),
   ((executionEntry.bind RateLimitEntry.dailyExecutionMs).getD 0, limits.executionTimePerDay))

deriving instance DecidableEq for Except

/-! ## The rate-limiter claims -/

/-- C1. Claimed: for a ceiling N, N admits within one window succeed and the
(N+1)th within the same window is throttled, for both the per-minute
`api_call` ceiling and the per-hour `create_sandbox` ceiling.  Evaluation of
`checkLimit` at the failing input: on the free tier (hourly ceiling 5), five
`create_sandbox` calls at t = 0 exhaust the hourly ceiling (a sixth call at
t = 0 is indeed rejected), yet a sixth call at t = 60001 ms — well inside the
same hour window — is accepted, because the expiry of the minute window
rebuilds the whole entry and wipes `hourlyCount`. -/
theorem checkLimit_sixth_sandbox_in_same_hour_accepted :
    (QUOTA_TIERS .free).sandboxesPerHour = 5 ∧
    ((checkLimit 0 "u" .free .create_sandbox RateLimits.empty).2 = .ok true ∧
     ((checkLimit 0 "u" .free .create_sandbox
        (checkLimit 0 "u" .free .create_sandbox RateLimits.empty).1).2 = .ok true ∧
      ((checkLimit 0 "u" .free .create_sandbox
         (checkLimit 0 "u" .free .create_sandbox
           (checkLimit 0 "u" .free .create_sandbox RateLimits.empty).1).1).2 = .ok true ∧
       ((checkLimit 0 "u" .free .create_sandbox
          (checkLimit 0 "u" .free .create_sandbox
            (checkLimit 0 "u" .free .create_sandbox
              (checkLimit 0 "u" .free .create_sandbox RateLimits.empty).1).1).1).2 = .ok true ∧
        (checkLimit 0 "u" .free .create_sandbox
           (checkLimit 0 "u" .free .create_sandbox
             (checkLimit 0 "u" .free .create_sandbox
               (checkLimit 0 "u" .free .create_sandbox
                 (checkLimit 0 "u" .free .create_sandbox RateLimits.empty).1).1).1).1).2
          = .ok true)))) ∧
    (((checkLimit 0 "u" .free .create_sandbox
         (checkLimit 0 "u" .free .create_sandbox
           (checkLimit 0 "u" .free .create_sandbox
             (checkLimit 0 "u" .free .create_sandbox
               (checkLimit 0 "u" .free .create_sandbox RateLimits.empty).1).1).1).1).1
        "u:create_sandbox").bind RateLimitEntry.hourlyCount).getD 0 = 5 ∧
    (checkLimit 0 "u" .free .create_sandbox
       (checkLimit 0 "u" .free .create_sandbox
         (checkLimit 0 "u" .free .create_sandbox
           (checkLimit 0 "u" .free .create_sandbox
             (checkLimit 0 "u" .free .create_sandbox
               (checkLimit 0 "u" .free .create_sandbox RateLimits.empty).1).1).1).1).1).2.isOk
      = false ∧
    60001 ≤ 3600000 ∧
    (checkLimit 60001 "u" .free .create_sandbox
       (checkLimit 0 "u" .free .create_sandbox
         (checkLimit 0 "u" .free .create_sandbox
           (checkLimit 0 "u" .free .create_sandbox
             (checkLimit 0 "u" .free .create_sandbox
               (checkLimit 0 "u" .free .create_sandbox RateLimits.empty).1).1).1).1).1).2
      = .ok true := by
  decide

/-- C2. Claimed invariant: each counter is reset only when its own window
boundary is crossed.  Evaluation of `checkLimit` at the failing input: two
`create_sandbox` calls at t = 0 leave `hourlyCount = 2` with
`hourlyResetAt = 3 600 000`; a third call at t = 60001 ms — before the hourly
boundary — finds the minute window expired, rebuilds the entry, and thereby
resets `hourlyCount` to 0 (the call then increments it to 1) and moves
`hourlyResetAt`, although the hourly boundary was never crossed. -/
theorem checkLimit_hourly_counter_reset_before_boundary :
    (((checkLimit 0 "u" .free .create_sandbox
         (checkLimit 0 "u" .free .create_sandbox RateLimits.empty).1).1
        "u:create_sandbox").bind RateLimitEntry.hourlyCount).getD 0 = 2 ∧
    (((checkLimit 0 "u" .free .create_sandbox
         (checkLimit 0 "u" .free .create_sandbox RateLimits.empty).1).1
        "u:create_sandbox").bind RateLimitEntry.hourlyResetAt).getD 0 = 3600000 ∧
    60001 ≤ 3600000 ∧
    (((checkLimit 60001 "u" .free .create_sandbox
         (checkLimit 0 "u" .free .create_sandbox
           (checkLimit 0 "u" .free .create_sandbox RateLimits.empty).1).1).1
        "u:create_sandbox").bind RateLimitEntry.hourlyCount).getD 0 = 1 ∧
    (((checkLimit 60001 "u" .free .create_sandbox
         (checkLimit 0 "u" .free .create_sandbox
           (checkLimit 0 "u" .free .create_sandbox RateLimits.empty).1).1).1
        "u:create_sandbox").bind RateLimitEntry.hourlyResetAt).getD 0 = 3660001 := by
  decide

theorem RateLimits.set_get (m : RateLimits) (k : String) (e : RateLimitEntry) :
    RateLimits.set m k e k = some e := by
  simp [RateLimits.set]

/-- C10. `recordExecutionTime` adds the duration to the daily counter before
checking the ceiling and never rolls it back: the call fails exactly when the
cumulative total after the addition strictly exceeds the daily ceiling (a
total equal to the ceiling succeeds), the duration of the crossing call stays
recorded in the map despite the failure, and every later call for the same
identity made before the daily window resets fails as well. -/
theorem recordExecutionTime_spec
    (now : Nat) (userId : String) (tier : UserTier) (d : Nat) (m : RateLimits) :
    ((recordExecutionTime now userId tier d m).2.isOk = false ↔
      (((recordExecutionTime now userId tier d m).1 (userId ++ ":execution_time")).bind
          RateLimitEntry.dailyExecutionMs).getD 0 > (QUOTA_TIERS tier).executionTimePerDay) ∧
    (∀ e₀, m (userId ++ ":execution_time") = some e₀ → ¬ now > e₀.dailyResetAt.getD 0 →
      (((recordExecutionTime now userId tier d m).1 (userId ++ ":execution_time")).bind
          RateLimitEntry.dailyExecutionMs).getD 0 = e₀.dailyExecutionMs.getD 0 + d) ∧
    (m (userId ++ ":execution_time") = none →
      (((recordExecutionTime now userId tier d m).1 (userId ++ ":execution_time")).bind
          RateLimitEntry.dailyExecutionMs).getD 0 = d) ∧
    ((recordExecutionTime now userId tier d m).2.isOk = false →
      ∀ now' d', ¬ now' > (((recordExecutionTime now userId tier d m).1
            (userId ++ ":execution_time")).bind RateLimitEntry.dailyResetAt).getD 0 →
        (recordExecutionTime now' userId tier d' (recordExecutionTime now userId tier d m).1).2.isOk
          = false) := by
  simp only [recordExecutionTime, RateLimits.set_get]
  cases hm : m (userId ++ ":execution_time") with
  | none =>
    simp only [hm, RateLimits.set_get, Option.bind_some, Option.getD_some, Nat.zero_add]
    refine ⟨?_, ?_, ?_, ?_⟩
    · split <;> simp_all [Except.isOk, Except.toBool]
    · intro e₀ h; exact absurd h (by simp)
    · intro _; simp
    · intro herr now' d' hle
      have h86 : ¬ now' > now + 86400000 := by simpa using hle
      simp only [if_neg h86]
      rcases Nat.lt_or_ge (QUOTA_TIERS tier).executionTimePerDay d with hgt | hgt
      · rw [if_pos (by simp only [Option.getD_some]; omega)]
        simp [Except.isOk, Except.toBool]
      · rw [if_neg (by omega)] at herr
        simp [Except.isOk, Except.toBool] at herr
  | some e₀ =>
    simp only [hm, RateLimits.set_get, Option.bind_some, Option.getD_some, Nat.zero_add]
    by_cases hreset : now > e₀.dailyResetAt.getD 0
    · simp only [if_pos hreset]
      simp only [Option.getD_some, Nat.zero_add]
      refine ⟨?_, ?_, ?_, ?_⟩
      · split <;> simp_all [Except.isOk, Except.toBool]
      · intro e₁ he₁ hnr; injection he₁ with h; subst h; exact absurd hreset hnr
      · intro h; simp at h
      · intro herr now' d' hle
        have h86 : ¬ now' > now + 86400000 := by simpa using hle
        simp only [if_neg h86]
        rcases Nat.lt_or_ge (QUOTA_TIERS tier).executionTimePerDay d with hgt | hgt
        · rw [if_pos (by simp only [Option.getD_some]; omega)]
          simp [Except.isOk, Except.toBool]
        · rw [if_neg (by omega)] at herr
          simp [Except.isOk, Except.toBool] at herr
    · simp only [if_neg hreset]
      refine ⟨?_, ?_, ?_, ?_⟩
      · split <;> simp_all [Except.isOk, Except.toBool]
      · intro e₁ he₁ _; injection he₁ with h; subst h; simp
      · intro h; simp at h
      · intro herr now' d' hle
        have hrc : ¬ now' > e₀.dailyResetAt.getD 0 := by simpa using hle
        simp only [if_neg hrc]
        rcases Nat.lt_or_ge (QUOTA_TIERS tier).executionTimePerDay
            (e₀.dailyExecutionMs.getD 0 + d) with hgt | hgt
        · rw [if_pos (by simp only [Option.getD_some]; omega)]
          simp [Except.isOk, Except.toBool]
        · rw [if_neg (by omega)] at herr
          simp [Except.isOk, Except.toBool] at herr

/-- Witness for C10 at a concrete input: on the free tier (daily ceiling
3 600 000 ms) a single 3 600 001 ms execution is rejected, the duration is
recorded anyway, and a later call before the reset is rejected too. -/
theorem recordExecutionTime_spec_witness :
    (recordExecutionTime 0 "u" .free 3600001 RateLimits.empty).2.isOk = false ∧
    (((recordExecutionTime 0 "u" .free 3600001 RateLimits.empty).1 ("u" ++ ":execution_time")).bind
        RateLimitEntry.dailyExecutionMs).getD 0 = 3600001 ∧
    (recordExecutionTime 100 "u" .free 0
        (recordExecutionTime 0 "u" .free 3600001 RateLimits.empty).1).2.isOk = false := by
  have h := recordExecutionTime_spec 0 "u" .free 3600001 RateLimits.empty
  refine ⟨by decide, ?_, ?_⟩
  · exact h.2.2.1 rfl
  · exact h.2.2.2 (by decide) 100 0 (by decide)

/-- C7, counterexample to the claim as stated: the daily execution-time quota
rejection is retryable but its message is the fixed string
"Daily execution time quota exceeded", which contains no digit and no
occurrence of "second" — it does not report the seconds until the window
resets.  (Free tier: recording 3 600 001 ms at t = 0 exceeds the 3 600 000 ms
daily ceiling.) -/
theorem recordExecutionTime_rejection_reports_no_seconds :
    (recordExecutionTime 0 "u" .free 3600001 RateLimits.empty).2.isOk = false ∧
    (errOf (recordExecutionTime 0 "u" .free 3600001 RateLimits.empty).2).retryable = true ∧
    (errOf (recordExecutionTime 0 "u" .free 3600001 RateLimits.empty).2).message =
      "Daily execution time quota exceeded" ∧
    strHas (errOf (recordExecutionTime 0 "u" .free 3600001 RateLimits.empty).2).message
      "second" = false ∧
    ((errOf (recordExecutionTime 0 "u" .free 3600001 RateLimits.empty).2).message.data.all
      (fun c => !(decide ('0' ≤ c) && decide (c ≤ '9')))) = true := by
  decide

/-- C7 as amended: every rate-limit or quota rejection raised by the
RateLimiter is retryable with status 429; the per-minute and per-hour
rejections of `checkLimit` report in their message the number of seconds
until the relevant window resets, while the daily execution-time rejection of
`recordExecutionTime` carries the fixed message without a wait hint. -/
theorem rateLimiter_rejections_retryable_with_hint
    (now : Nat) (userId : String) (tier : UserTier) (op : Operation) (d : Nat) (m : RateLimits) :
    (∀ e, (checkLimit now userId tier op m).2 = .error e →
      e.retryable = true ∧ e.statusCode = 429 ∧
      ∃ entry, (checkLimit now userId tier op m).1 (userId ++ ":" ++ opString op) = some entry ∧
        ((op = .api_call ∧ e.code = .RATE_LIMIT_EXCEEDED ∧
          e.message = "Rate limit exceeded. Try again in " ++
            toString (ceilSeconds entry.resetAt now) ++ " seconds.") ∨
         (op = .create_sandbox ∧ e.code = .QUOTA_EXCEEDED ∧
          e.message = "Sandbox quota exceeded. Try again in " ++
            toString (ceilSeconds (entry.hourlyResetAt.getD 0) now) ++ " seconds."))) ∧
    (∀ e, (recordExecutionTime now userId tier d m).2 = .error e →
      e.retryable = true ∧ e.statusCode = 429 ∧
      e.message = "Daily execution time quota exceeded") := by
  constructor
  · cases op with
    | api_call =>
      simp only [checkLimit, opString]
      split
      · intro e he
        injection he with h1
        subst h1
        exact ⟨rfl, rfl, _, RateLimits.set_get _ _ _, Or.inl ⟨trivial, rfl, rfl⟩⟩
      · intro e he
        exact absurd he (by simp)
    | create_sandbox =>
      simp only [checkLimit, opString]
      split
      · intro e he
        injection he with h1
        subst h1
        exact ⟨rfl, rfl, _, RateLimits.set_get _ _ _, Or.inr ⟨trivial, rfl, rfl⟩⟩
      · intro e he
        exact absurd he (by simp)
  · simp only [recordExecutionTime]
    split
    · intro e he
      injection he with h1
      subst h1
      exact ⟨rfl, rfl, rfl⟩
    · intro e he
      exact absurd he (by simp)

/-- Witness for C7 (amended) at a concrete throttled call: a free-tier user
whose minute counter is at the ceiling gets a retryable 429 error. -/
theorem rateLimiter_rejections_witness :
    (errOf (checkLimit 0 "u" .free .api_call
        (RateLimits.empty.set ("u" ++ ":" ++ opString .api_call)
          ⟨10, 60000, some 0, some 3600000, some 0, some 86400000⟩)).2).retryable = true ∧
    (errOf (checkLimit 0 "u" .free .api_call
        (RateLimits.empty.set ("u" ++ ":" ++ opString .api_call)
          ⟨10, 60000, some 0, some 3600000, some 0, some 86400000⟩)).2).statusCode = 429 := by
  have h := (rateLimiter_rejections_retryable_with_hint 0 "u" .free .api_call 0
      (RateLimits.empty.set ("u" ++ ":" ++ opString .api_call)
        ⟨10, 60000, some 0, some 3600000, some 0, some 86400000⟩)).1
    (errOf (checkLimit 0 "u" .free .api_call
        (RateLimits.empty.set ("u" ++ ":" ++ opString .api_call)
          ⟨10, 60000, some 0, some 3600000, some 0, some 86400000⟩)).2)
    (by decide)
  exact ⟨h.1, h.2.1⟩

/-- Path segments: split on the `/` separator (used only to state the
“no `..` segment” part of C6; the code itself checks the stronger
“no `..` substring”). -/
def splitSeg : List Char → List (List Char)
  | [] => [[]]
  | c :: t =>
    if c = '/' then [] :: splitSeg t
    else
      match splitSeg t with
      | s :: rest => (c :: s) :: rest
      | [] => [[c]]

/-- The first component of `splitSeg` is a prefix and every later segment is
an infix of the original list. -/
theorem splitSeg_spec (l : List Char) :
    ∃ s₀ rest, splitSeg l = s₀ :: rest ∧ (∃ u, l = s₀ ++ u) ∧
      (∀ seg ∈ rest, ∃ p t, l = p ++ seg ++ t) := by
  induction l with
  | nil => exact ⟨[], [], rfl, ⟨[], rfl⟩, by simp⟩
  | cons c t ih =>
    obtain ⟨s₀, rest, hsplit, ⟨u, hu⟩, hrest⟩ := ih
    by_cases hc : c = '/'
    · refine ⟨[], splitSeg t, by simp [splitSeg, hc], ⟨c :: t, rfl⟩, ?_⟩
      intro seg hseg
      rw [hsplit, List.mem_cons] at hseg
      rcases hseg with hseg | hseg
      · exact ⟨[c], u, by simp [hu, hseg]⟩
      · obtain ⟨p, t', ht'⟩ := hrest seg hseg
        exact ⟨c :: p, t', by simp [ht']⟩
    · refine ⟨c :: s₀, rest, ?_, ⟨u, by simp [hu]⟩, ?_⟩
      · simp only [splitSeg, if_neg hc, hsplit]
      · intro seg hseg
        obtain ⟨p, t', ht'⟩ := hrest seg hseg
        exact ⟨c :: p, t', by simp [ht']⟩

theorem splitSeg_mem (l seg : List Char) (h : seg ∈ splitSeg l) :
    ∃ p t, l = p ++ seg ++ t := by
  obtain ⟨s₀, rest, hsplit, ⟨u, hu⟩, hrest⟩ := splitSeg_spec l
  rw [hsplit, List.mem_cons] at h
  rcases h with h | h
  · exact ⟨[], u, by simp [hu, h]⟩
  · exact hrest seg h

/-- C6. `validateFilePath` accepts a path only if it has no `..` segment (the
code rejects any `..` substring, which is stronger), does not start with `/`,
has no drive-letter prefix, and starts with none of the fixed forbidden
prefixes; the five example paths of the spec behave as claimed, and
`assertValidFilePath` fails with the `PATH_TRAVERSAL` kind exactly on the
rejected ones. -/
theorem validateFilePath_spec :
    (∀ p, validateFilePath p = true →
      (∀ seg ∈ splitSeg p.data, seg ≠ ['.', '.']) ∧
      strStarts p "/" = false ∧ driveLetterStart p = false ∧
      ∀ pat ∈ FORBIDDEN_PATHS, strStarts p pat = false) ∧
    validateFilePath "src/index.ts" = true ∧
    assertValidFilePath "src/index.ts" = .ok () ∧
    validateFilePath "../etc/passwd" = false ∧
    validateFilePath "/etc/passwd" = false ∧
    validateFilePath ".env" = false ∧
    validateFilePath "C:/Windows/x" = false ∧
    ((errOf (assertValidFilePath "../etc/passwd")).code = .PATH_TRAVERSAL ∧
     (assertValidFilePath "../etc/passwd").isOk = false) ∧
    ((errOf (assertValidFilePath "/etc/passwd")).code = .PATH_TRAVERSAL ∧
     (assertValidFilePath "/etc/passwd").isOk = false) ∧
    ((errOf (assertValidFilePath ".env")).code = .PATH_TRAVERSAL ∧
     (assertValidFilePath ".env").isOk = false) ∧
    ((errOf (assertValidFilePath "C:/Windows/x")).code = .PATH_TRAVERSAL ∧
     (assertValidFilePath "C:/Windows/x").isOk = false) := by
  refine ⟨?_, by decide, by decide, by decide, by decide, by decide, by decide,
    ⟨by decide, by decide⟩, ⟨by decide, by decide⟩, ⟨by decide, by decide⟩,
    ⟨by decide, by decide⟩⟩
  intro p hp
  have hval : validateFilePath p =
      (!strHas p ".." && !strStarts p "/" && !driveLetterStart p &&
       !(FORBIDDEN_PATHS.any (fun pat => strStarts p pat))) := by
    unfold validateFilePath
    cases strHas p ".." <;> cases strStarts p "/" <;> cases driveLetterStart p <;>
      cases (FORBIDDEN_PATHS.any (fun pat => strStarts p pat)) <;> simp
  rw [hval] at hp
  simp only [Bool.and_eq_true, Bool.not_eq_true'] at hp
  obtain ⟨⟨⟨h1, h2⟩, h3⟩, h4⟩ := hp
  refine ⟨?_, h2, h3, ?_⟩
  · intro seg hseg hbad
    subst hbad
    obtain ⟨pre, t, ht⟩ := splitSeg_mem p.data _ hseg
    have hinf : listHas (String.data "..") p.data = true := by
      rw [listHas_iff]
      exact ⟨pre, t, by simpa using ht⟩
    rw [strHas] at h1
    rw [h1] at hinf
    exact absurd hinf (by simp)
  · intro pat hpat
    by_contra hbad
    have hany : (FORBIDDEN_PATHS.any (fun pat => strStarts p pat)) = true := by
      rw [List.any_eq_true]
      exact ⟨pat, hpat, by simpa using Bool.of_not_eq_false hbad⟩
    rw [h4] at hany; exact absurd hany (by simp)

/-- Witness for C6: the universally quantified part applied to the accepted
path "src/index.ts". -/
theorem validateFilePath_spec_witness :
    strStarts "src/index.ts" "/" = false ∧ driveLetterStart "src/index.ts" = false :=
  ⟨(validateFilePath_spec.1 "src/index.ts" (by decide)).2.1,
   (validateFilePath_spec.1 "src/index.ts" (by decide)).2.2.1⟩

/-- C5. Claimed: `validateRepoId` accepts exactly the identifiers placed in
the allowlist (closed-world membership).  Evaluation at the failing input:
the allowlist contains only "owner1/repo1", and ordinary outsiders such as
"owner3/repo3" are indeed rejected, but "toString" — which no one placed in
the allowlist — is accepted, because `repoId in allowedRepos` consults the
prototype chain of the object literal and finds `Object.prototype.toString`;
`assertValidRepoId` consequently does not throw on it either. -/
theorem validateRepoId_accepts_prototype_keys :
    validateRepoId "owner1/repo1" [("owner1/repo1", "token1")] = true ∧
    validateRepoId "owner3/repo3" [("owner1/repo1", "token1")] = false ∧
    (errOf (assertValidRepoId "owner3/repo3" [("owner1/repo1", "token1")])).code
      = .INVALID_REPO ∧
    ([("owner1/repo1", "token1")].any (fun kv => kv.1 == "toString")) = false ∧
    validateRepoId "toString" [("owner1/repo1", "token1")] = true ∧
    assertValidRepoId "toString" [("owner1/repo1", "token1")] = .ok () := by
  decide

/-! ## JSON values and the parameter sanitizer (middleware/error-handler.ts) -/

/-- A JSON value, the model of the `unknown` values inside a
`Record<string, unknown>` parameter map.  Arrays and objects keep their
JavaScript enumeration order as list order; numbers are modelled as integers
(every number the gateway handles is integral). -/
inductive JVal where
  | str (s : String)
  | num (n : Int)
  | bool (b : Bool)
  | null
  | arr (elems : List JVal)
  | obj (fields : List (String × JVal))

mutual
def jvalBeq : JVal → JVal → Bool
  | .str a, .str b => a == b
  | .num a, .num b => a == b
  | .bool a, .bool b => a == b
  | .null, .null => true
  | .arr a, .arr b => jarrBeq a b
  | .obj a, .obj b => jobjBeq a b
  | _, _ => false

def jarrBeq : List JVal → List JVal → Bool
  | [], [] => true
  | a :: as, b :: bs => jvalBeq a b && jarrBeq as bs
  | _, _ => false

def jobjBeq : List (String × JVal) → List (String × JVal) → Bool
  | [], [] => true
  | (k1, v1) :: as, (k2, v2) :: bs => k1 == k2 && jvalBeq v1 v2 && jobjBeq as bs
  | _, _ => false
end

mutual
theorem jvalBeq_eq : ∀ a b : JVal, jvalBeq a b = true → a = b
  | .str a, .str b, h => by simpa [jvalBeq] using h
  | .num a, .num b, h => by simpa [jvalBeq] using h
  | .bool a, .bool b, h => by simpa [jvalBeq] using h
  | .null, .null, _ => rfl
  | .arr a, .arr b, h => by rw [jarrBeq_eq a b (by simpa [jvalBeq] using h)]
  | .obj a, .obj b, h => by rw [jobjBeq_eq a b (by simpa [jvalBeq] using h)]
  | .str _, .num _, h => by simp [jvalBeq] at h
  | .str _, .bool _, h => by simp [jvalBeq] at h
  | .str _, .null, h => by simp [jvalBeq] at h
  | .str _, .arr _, h => by simp [jvalBeq] at h
  | .str _, .obj _, h => by simp [jvalBeq] at h
  | .num _, .str _, h => by simp [jvalBeq] at h
  | .num _, .bool _, h => by simp [jvalBeq] at h
  | .num _, .null, h => by simp [jvalBeq] at h
  | .num _, .arr _, h => by simp [jvalBeq] at h
  | .num _, .obj _, h => by simp [jvalBeq] at h
  | .bool _, .str _, h => by simp [jvalBeq] at h
  | .bool _, .num _, h => by simp [jvalBeq] at h
  | .bool _, .null, h => by simp [jvalBeq] at h
  | .bool _, .arr _, h => by simp [jvalBeq] at h
  | .bool _, .obj _, h => by simp [jvalBeq] at h
  | .null, .str _, h => by simp [jvalBeq] at h
  | .null, .num _, h => by simp [jvalBeq] at h
  | .null, .bool _, h => by simp [jvalBeq] at h
  | .null, .arr _, h => by simp [jvalBeq] at h
  | .null, .obj _, h => by simp [jvalBeq] at h
  | .arr _, .str _, h => by simp [jvalBeq] at h
  | .arr _, .num _, h => by simp [jvalBeq] at h
  | .arr _, .bool _, h => by simp [jvalBeq] at h
  | .arr _, .null, h => by simp [jvalBeq] at h
  | .arr _, .obj _, h => by simp [jvalBeq] at h
  | .obj _, .str _, h => by simp [jvalBeq] at h
  | .obj _, .num _, h => by simp [jvalBeq] at h
  | .obj _, .bool _, h => by simp [jvalBeq] at h
  | .obj _, .null, h => by simp [jvalBeq] at h
  | .obj _, .arr _, h => by simp [jvalBeq] at h

theorem jarrBeq_eq : ∀ a b : List JVal, jarrBeq a b = true → a = b
  | [], [], _ => rfl
  | a :: as, b :: bs, h => by
    have h' := h
    simp only [jarrBeq, Bool.and_eq_true] at h'
    rw [jvalBeq_eq a b h'.1, jarrBeq_eq as bs h'.2]
  | [], _ :: _, h => by simp [jarrBeq] at h
  | _ :: _, [], h => by simp [jarrBeq] at h

theorem jobjBeq_eq : ∀ a b : List (String × JVal), jobjBeq a b = true → a = b
  | [], [], _ => rfl
  | (k1, v1) :: as, (k2, v2) :: bs, h => by
    have h' := h
    simp only [jobjBeq, Bool.and_eq_true, beq_iff_eq] at h'
    rw [h'.1.1, jvalBeq_eq v1 v2 h'.1.2, jobjBeq_eq as bs h'.2]
  | [], _ :: _, h => by simp [jobjBeq] at h
  | _ :: _, [], h => by simp [jobjBeq] at h
end

mutual
theorem jvalBeq_refl : ∀ a : JVal, jvalBeq a a = true
  | .str a => by simp [jvalBeq]
  | .num a => by simp [jvalBeq]
  | .bool a => by simp [jvalBeq]
  | .null => rfl
  | .arr a => by simpa [jvalBeq] using jarrBeq_refl a
  | .obj a => by simpa [jvalBeq] using jobjBeq_refl a

theorem jarrBeq_refl : ∀ a : List JVal, jarrBeq a a = true
  | [] => rfl
  | a :: as => by simp [jarrBeq, jvalBeq_refl a, jarrBeq_refl as]

theorem jobjBeq_refl : ∀ a : List (String × JVal), jobjBeq a a = true
  | [] => rfl
  | (k, v) :: as => by simp [jobjBeq, jvalBeq_refl v, jobjBeq_refl as]
end

instance : DecidableEq JVal := fun a b =>
  decidable_of_iff (jvalBeq a b = true)
    ⟨jvalBeq_eq a b, fun h => h ▸ jvalBeq_refl a⟩

/-- The `sensitiveKeys` list of `sanitizeParameters`. -/
def sensitiveKeys : List String := ["token", "secret", "api_key", "apiKey", "password", "auth"]

/-- ASCII `toLowerCase` (the sensitive-substring test only involves ASCII). -/
def charLower (c : Char) : Char :=
  if 'A' ≤ c ∧ c ≤ 'Z' then Char.ofNat (c.toNat + 32) else c

def lowerStr (s : String) : String := ⟨s.data.map charLower⟩

/-- The `isSensitive` test of `sanitizeParameters`: the lowercased key
contains some lowercased sensitive word as a substring. -/
def isSensitiveKey (key : String) : Bool :=
  sensitiveKeys.any (fun sk => strHas (lowerStr key) (lowerStr sk))

/- sanitizeParameters of error-handler.ts, as the mutual family below.
A sensitive key gets the marker; otherwise the JS test checks
typeof value (objects *and arrays*) and recurses via Object.entries, which
enumerates an array as index-keyed entries ("0", v0), ("1", v1), ... — so an
array value is rebuilt as an index-keyed plain object; other values
(strings, numbers, booleans, null) pass through. -/
mutual
def sanitizeValue : JVal → JVal
  | .obj fs => .obj (sanitizeFields fs)
  | .arr xs => .obj (sanitizeArr 0 xs)
  | v => v

def sanitizeFields : List (String × JVal) → List (String × JVal)
  | [] => []
  | (k, v) :: rest =>
    (k, if isSensitiveKey k then .str "[REDACTED]" else sanitizeValue v) :: sanitizeFields rest

def sanitizeArr (i : Nat) : List JVal → List (String × JVal)
  | [] => []
  | v :: rest =>
    (toString i, if isSensitiveKey (toString i) then .str "[REDACTED]" else sanitizeValue v)
      :: sanitizeArr (i + 1) rest
end

/-- `sanitizeParameters` applied to a whole parameter map. -/
def sanitizeParameters (params : List (String × JVal)) : List (String × JVal) :=
  sanitizeFields params

/-- Is the value a non-object scalar (string, number, boolean or `null`)?
These are exactly the values `sanitizeParameters` passes through unchanged
under a non-sensitive key. -/
def isScalar : JVal → Bool
  | .str _ => true
  | .num _ => true
  | .bool _ => true
  | .null => true
  | .arr _ => false
  | .obj _ => false

/- Deep redaction check: every entry whose key is sensitive holds exactly
the marker, recursively through the structure. -/
mutual
def redactedValOK : JVal → Bool
  | .obj fs => redactedFieldsOK fs
  | .arr xs => redactedArrOK xs
  | _ => true

def redactedFieldsOK : List (String × JVal) → Bool
  | [] => true
  | (k, v) :: rest =>
    (if isSensitiveKey k then jvalBeq v (.str "[REDACTED]") else redactedValOK v)
      && redactedFieldsOK rest

def redactedArrOK : List JVal → Bool
  | [] => true
  | v :: rest => redactedValOK v && redactedArrOK rest
end

mutual
theorem sanitizeValue_redacted : ∀ v : JVal, redactedValOK (sanitizeValue v) = true
  | .obj fs => by simpa [sanitizeValue, redactedValOK] using sanitizeFields_redacted fs
  | .arr xs => by simpa [sanitizeValue, redactedValOK] using sanitizeArr_redacted 0 xs
  | .str s => rfl
  | .num n => rfl
  | .bool b => rfl
  | .null => rfl

theorem sanitizeFields_redacted : ∀ fs : List (String × JVal),
    redactedFieldsOK (sanitizeFields fs) = true
  | [] => rfl
  | (k, v) :: rest => by
    by_cases hk : isSensitiveKey k
    · simp [sanitizeFields, redactedFieldsOK, hk, jvalBeq_refl,
        sanitizeFields_redacted rest]
    · simp [sanitizeFields, redactedFieldsOK, hk, sanitizeValue_redacted v,
        sanitizeFields_redacted rest]

theorem sanitizeArr_redacted : ∀ (i : Nat) (xs : List JVal),
    redactedFieldsOK (sanitizeArr i xs) = true
  | _, [] => rfl
  | i, v :: rest => by
    by_cases hk : isSensitiveKey (toString i)
    · simp [sanitizeArr, redactedFieldsOK, hk, jvalBeq_refl,
        sanitizeArr_redacted (i + 1) rest]
    · simp [sanitizeArr, redactedFieldsOK, hk, sanitizeValue_redacted v,
        sanitizeArr_redacted (i + 1) rest]
end

theorem sanitizeFields_keys : ∀ fs : List (String × JVal),
    (sanitizeFields fs).map Prod.fst = fs.map Prod.fst
  | [] => rfl
  | (k, v) :: rest => by simp [sanitizeFields, sanitizeFields_keys rest]

theorem sanitizeFields_mem_scalar (fs : List (String × JVal)) (k : String) (v : JVal)
    (hmem : (k, v) ∈ fs) (hk : isSensitiveKey k = false) (hs : isScalar v = true) :
    (k, v) ∈ sanitizeFields fs := by
  induction fs with
  | nil => simp at hmem
  | cons hd rest ih =>
    obtain ⟨k', v'⟩ := hd
    rw [List.mem_cons] at hmem
    rcases hmem with hmem | hmem
    · injection hmem with h1 h2
      subst h1; subst h2
      have hv : sanitizeValue v = v := by
        cases v <;> simp_all [isScalar, sanitizeValue]
      simp [sanitizeFields, hk, hv]
    · simp [sanitizeFields, ih hmem]

theorem sanitizeFields_mem_sensitive (fs : List (String × JVal)) (k : String) (v : JVal)
    (hmem : (k, v) ∈ fs) (hk : isSensitiveKey k = true) :
    (k, JVal.str "[REDACTED]") ∈ sanitizeFields fs := by
  induction fs with
  | nil => simp at hmem
  | cons hd rest ih =>
    obtain ⟨k', v'⟩ := hd
    rw [List.mem_cons] at hmem
    rcases hmem with hmem | hmem
    · injection hmem with h1 h2
      subst h1; subst h2
      simp [sanitizeFields, hk]
    · simp [sanitizeFields, ih hmem]

theorem sanitizeFields_mem_arr (fs : List (String × JVal)) (k : String) (xs : List JVal)
    (hmem : (k, JVal.arr xs) ∈ fs) (hk : isSensitiveKey k = false) :
    (k, JVal.obj (sanitizeArr 0 xs)) ∈ sanitizeFields fs := by
  induction fs with
  | nil => simp at hmem
  | cons hd rest ih =>
    obtain ⟨k', v'⟩ := hd
    rw [List.mem_cons] at hmem
    rcases hmem with hmem | hmem
    · injection hmem with h1 h2
      subst h1; subst h2
      simp [sanitizeFields, hk, sanitizeValue]
    · simp [sanitizeFields, ih hmem]

mutual
theorem sanitizeValue_idem : ∀ v : JVal, sanitizeValue (sanitizeValue v) = sanitizeValue v
  | .obj fs => by simp [sanitizeValue, sanitizeFields_idem fs]
  | .arr xs => by simp [sanitizeValue, sanitizeArr_idem 0 xs]
  | .str s => rfl
  | .num n => rfl
  | .bool b => rfl
  | .null => rfl

theorem sanitizeFields_idem : ∀ fs : List (String × JVal),
    sanitizeFields (sanitizeFields fs) = sanitizeFields fs
  | [] => rfl
  | (k, v) :: rest => by
    by_cases hk : isSensitiveKey k
    · simp [sanitizeFields, hk, sanitizeFields_idem rest]
    · simp [sanitizeFields, hk, sanitizeValue_idem v, sanitizeFields_idem rest]

theorem sanitizeArr_idem : ∀ (i : Nat) (xs : List JVal),
    sanitizeFields (sanitizeArr i xs) = sanitizeArr i xs
  | _, [] => rfl
  | i, v :: rest => by
    by_cases hk : isSensitiveKey (toString i)
    · simp [sanitizeArr, sanitizeFields, hk, sanitizeArr_idem (i + 1) rest]
    · simp [sanitizeArr, sanitizeFields, hk, sanitizeValue_idem v,
        sanitizeArr_idem (i + 1) rest]
end

/-- C3 as amended.  `sanitizeParameters` replaces the value of every
sensitive-named key (case-insensitive substring test against token, secret,
api_key, apiKey, password, auth) with the `[REDACTED]` marker at any nesting
depth; it preserves the key sequence; a non-matching key keeps its value
unchanged when that value is a scalar (string, number, boolean or null); a
non-matching key holding an *array* does **not** pass through unchanged —
the array is rebuilt as an index-keyed object whose entries are recursively
sanitized; and the function is idempotent. -/
theorem sanitizeParameters_amended :
    (∀ fs : List (String × JVal), redactedFieldsOK (sanitizeParameters fs) = true) ∧
    (∀ fs : List (String × JVal),
      (sanitizeParameters fs).map Prod.fst = fs.map Prod.fst) ∧
    (∀ (fs : List (String × JVal)) (k : String) (v : JVal), (k, v) ∈ fs →
      isSensitiveKey k = false → isScalar v = true → (k, v) ∈ sanitizeParameters fs) ∧
    (∀ (fs : List (String × JVal)) (k : String) (v : JVal), (k, v) ∈ fs →
      isSensitiveKey k = true → (k, JVal.str "[REDACTED]") ∈ sanitizeParameters fs) ∧
    (∀ (fs : List (String × JVal)) (k : String) (xs : List JVal), (k, JVal.arr xs) ∈ fs →
      isSensitiveKey k = false → (k, JVal.obj (sanitizeArr 0 xs)) ∈ sanitizeParameters fs) ∧
    (∀ fs : List (String × JVal),
      sanitizeParameters (sanitizeParameters fs) = sanitizeParameters fs) :=
  ⟨sanitizeFields_redacted, sanitizeFields_keys,
   sanitizeFields_mem_scalar, sanitizeFields_mem_sensitive, sanitizeFields_mem_arr,
   sanitizeFields_idem⟩

/-- C3, counterexample to the claim as stated: an array under the
non-sensitive key "items" is not left unchanged — `typeof [] === 'object'`
makes `sanitizeParameters` recurse through `Object.entries`, rebuilding the
array as the plain object with keys "0", "1". -/
theorem sanitizeParameters_array_counterexample :
    isSensitiveKey "items" = false ∧
    sanitizeParameters [("items", JVal.arr [JVal.num 1, JVal.num 2])]
      ≠ [("items", JVal.arr [JVal.num 1, JVal.num 2])] ∧
    sanitizeParameters [("items", JVal.arr [JVal.num 1, JVal.num 2])]
      = [("items", JVal.obj [("0", JVal.num 1), ("1", JVal.num 2)])] := by
  decide

/-- Witness for C3 (amended) at a concrete map: the sensitive key is
redacted, the sibling passes through. -/
theorem sanitizeParameters_amended_witness :
    ("token", JVal.str "[REDACTED]") ∈
      sanitizeParameters [("user", JVal.str "john"), ("token", JVal.str "tok-123")] ∧
    ("user", JVal.str "john") ∈
      sanitizeParameters [("user", JVal.str "john"), ("token", JVal.str "tok-123")] :=
  ⟨sanitizeParameters_amended.2.2.2.1 _ "token" (JVal.str "tok-123") (by decide) (by decide),
   sanitizeParameters_amended.2.2.1 _ "user" (JVal.str "john") (by decide) (by decide) (by decide)⟩

/-! ## ErrorSanitizer: sanitizeErrorMessage (middleware/error-handler.ts) -/

/-- JS regex `\s` on the ASCII range (space, tab, newline, carriage return,
vertical tab, form feed). -/
def isSpaceCh (c : Char) : Bool :=
  c == ' ' || c == '\t' || c == '\n' || c == '\r' || c.toNat == 11 || c.toNat == 12

/-- JS regex word character `\w` = `[A-Za-z0-9_]`. -/
def isWordCh (c : Char) : Bool :=
  ('a' ≤ c && c ≤ 'z') || ('A' ≤ c && c ≤ 'Z') || ('0' ≤ c && c ≤ '9') || c == '_'

/-- The character class `[a-zA-Z0-9_-]` of the long-opaque-run pattern. -/
def isTokCh (c : Char) : Bool := isWordCh c || c == '-'

/-- The separator class `[\s:=]` of the word-plus-value pattern. -/
def sepCh (c : Char) : Bool := isSpaceCh c || c == ':' || c == '='

def isWordOpt : Option Char → Bool
  | none => false
  | some c => isWordCh c

/-- A `\b` word boundary between two (possibly absent) adjacent characters. -/
def boundaryB (a b : Option Char) : Bool := isWordOpt a != isWordOpt b

/-- Case-insensitive literal match; returns the consumed input characters
(the capture keeps the original case, as `$1` does) and the rest. -/
def matchCI : List Char → List Char → Option (List Char × List Char)
  | [], l => some ([], l)
  | _ :: _, [] => none
  | p :: ps, c :: t =>
    if charLower c == charLower p then
      match matchCI ps t with
      | some (m, r) => some (c :: m, r)
      | none => none
    else none

/-- The alternative `api[_-]?key` (greedy optional separator, with the
regex backtracking into the optional class when `key` fails after it). -/
def matchApiKey (l : List Char) : Option (List Char × List Char) :=
  match matchCI "api".data l with
  | none => none
  | some (a, rest) =>
    match rest with
    | c :: rest' =>
      if c == '_' || c == '-' then
        match matchCI "key".data rest' with
        | some (k, rest2) => some (a ++ c :: k, rest2)
        | none =>
          match matchCI "key".data rest with
          | some (k, rest2) => some (a ++ k, rest2)
          | none => none
      else
        match matchCI "key".data rest with
        | some (k, rest2) => some (a ++ k, rest2)
        | none => none
    | [] => none

/-- The alternation `(token|secret|api[_-]?key|password)`.  The alternatives
start with distinct letters, so at most one can match at a given position. -/
def kwMatch (l : List Char) : Option (List Char × List Char) :=
  match matchCI "token".data l with
  | some r => some r
  | none =>
    match matchCI "secret".data l with
    | some r => some r
    | none =>
      match matchApiKey l with
      | some r => some r
      | none => matchCI "password".data l

/-- Index of the last non-space character of a separator run (the position
`[\S]+` backtracks to when the run reaches the end of the string); `none`
when there is none at index ≥ 1. -/
def lastNonSpaceIdx (run : List Char) : Option Nat :=
  match run.reverse.findIdx? (fun c => !isSpaceCh c) with
  | some k =>
    if 1 ≤ run.length - 1 - k then some (run.length - 1 - k) else none
  | none => none

/-- Match `(keyword)[\s:=]+[\S]+` at the head of `l`; on success returns the
captured keyword text and the rest of the input after the whole match. -/
def step2MatchAt (l : List Char) : Option (List Char × List Char) :=
  match kwMatch l with
  | none => none
  | some (kwText, r1) =>
    let run := r1.takeWhile sepCh
    if run.isEmpty then none
    else
      match r1.drop run.length with
      | c :: t =>
        some (kwText, (c :: t).drop ((c :: t).takeWhile (fun d => !isSpaceCh d)).length)
      | [] =>
        match lastNonSpaceIdx run with
        | some j => some (kwText, run.drop (j + 1))
        | none => none

/-- Global replace of `(token|secret|api[_-]?key|password)[\s:=]+[\S]+` by
`"$1 [REDACTED]"` (step 2 of the pipeline).  `fuel` bounds the scan; it is
instantiated with the input length, which suffices since every step consumes
at least one character. -/
def step2Go (fuel : Nat) (l : List Char) : List Char :=
  match fuel, l with
  | 0, rest => rest
  | _ + 1, [] => []
  | f + 1, c :: t =>
    match step2MatchAt (c :: t) with
    | some (kwText, rest) => kwText ++ (' ' :: "[REDACTED]".data) ++ step2Go f rest
    | none => c :: step2Go f t

/-- Global replace of `\b(token|secret|api[_-]?key|password)\b` by
`"[REDACTED]"` (step 3).  `prev` is the input character just before the scan
position, for the `\b` tests. -/
def step3Go (fuel : Nat) (prev : Option Char) (l : List Char) : List Char :=
  match fuel, l with
  | 0, rest => rest
  | _ + 1, [] => []
  | f + 1, c :: t =>
    match kwMatch (c :: t) with
    | some (kwText, rest) =>
      if boundaryB prev (some c) && boundaryB (some (kwText.getLastD c)) rest.head? then
        "[REDACTED]".data ++ step3Go f (some (kwText.getLastD c)) rest
      else c :: step3Go f (some c) t
    | none => c :: step3Go f (some c) t

/-- Global replace of a case-sensitive literal followed by `\S+` (the three
home-directory patterns of step 4). -/
def pathReplGo (fuel : Nat) (lit repl : List Char) (l : List Char) : List Char :=
  match fuel, l with
  | 0, rest => rest
  | _ + 1, [] => []
  | f + 1, c :: t =>
    if leadsWith lit (c :: t) then
      match (c :: t).drop lit.length with
      | d :: u =>
        if !isSpaceCh d then
          repl ++ pathReplGo f lit repl ((d :: u).drop ((d :: u).takeWhile (fun e => !isSpaceCh e)).length)
        else c :: pathReplGo f lit repl t
      | [] => c :: pathReplGo f lit repl t
    else c :: pathReplGo f lit repl t

/-- Largest match length in `[40, len]` for `[a-zA-Z0-9_-]{40,}` ending with
a `\b` boundary (the regex backtracks from the greedy maximal run until the
trailing boundary holds). -/
def step5Find (run : List Char) (after : Option Char) : Nat → Option Nat
  | 0 => none
  | len + 1 =>
    if len + 1 < 40 then none
    else
      let nxt := if len + 1 < run.length then run.get? (len + 1) else after
      if boundaryB (run.get? len) nxt then some (len + 1)
      else step5Find run after len

/-- Global replace of `\b[a-zA-Z0-9_-]{40,}\b` by `"[REDACTED]"` (step 5). -/
def step5Go (fuel : Nat) (prev : Option Char) (l : List Char) : List Char :=
  match fuel, l with
  | 0, rest => rest
  | _ + 1, [] => []
  | f + 1, c :: t =>
    let run := (c :: t).takeWhile isTokCh
    if boundaryB prev (some c) then
      match step5Find run ((c :: t).drop run.length).head? run.length with
      | some len =>
        "[REDACTED]".data ++
          step5Go f ((c :: t).take len).getLast? ((c :: t).drop len)
      | none => c :: step5Go f (some c) t
    else c :: step5Go f (some c) t

/-- Step 1: truncate to 200 characters, `substring(0, 197) + "..."`. -/
def truncate200 (l : List Char) : List Char :=
  if l.length > 200 then l.take 197 ++ "...".data else l

/-- Steps 2-5 of `sanitizeErrorMessage`, in source order. -/
def substitutionPipeline (l : List Char) : List Char :=
  let s2 := step2Go l.length l
  let s3 := step3Go s2.length none s2
  let s4a := pathReplGo s3.length "/home/".data "/[USER]/".data s3
  let s4b := pathReplGo s4a.length "/Users/".data "/[USER]/".data s4a
  let s4c := pathReplGo s4b.length "C:\\Users\\".data "C:\\[USER]\\".data s4b
  step5Go s4c.length none s4c

/-- `sanitizeErrorMessage` of error-handler.ts: the empty-message default,
then truncation before the substitution steps. -/
def sanitizeErrorMessage (message : String) : String :=
  if message = "" then "An error occurred"
  else ⟨substitutionPipeline (truncate200 message.data)⟩

/-- Does `s` end with `suffix`? -/
def strEnds (s suffix : String) : Bool := leadsWith suffix.data.reverse s.data.reverse

set_option maxRecDepth 400000

/-- C8, counterexample to the claim as stated: a 207-character message whose
truncation ends in "token " followed by the marker.  The word-plus-value
substitution absorbs the appended "..." as the value (`[\S]+`), so the final
output is "[REDACTED] [REDACTED] [REDACTED]" — it does not end with the
truncation marker although the input is longer than the maximum length. -/
theorem sanitizeErrorMessage_truncation_marker_counterexample :
    (List.replicate 190 'a' ++ " token abcdefghij".data).length = 207 ∧
    sanitizeErrorMessage ⟨List.replicate 190 'a' ++ " token abcdefghij".data⟩
      = "[REDACTED] [REDACTED] [REDACTED]" ∧
    strEnds (sanitizeErrorMessage ⟨List.replicate 190 'a' ++ " token abcdefghij".data⟩)
      "..." = false := by
  refine ⟨by decide, by decide, by decide⟩

/-- C8 as amended: `sanitizeErrorMessage` truncates its input to the maximum
length with the truncation marker *before* any substitution — for every
message over 200 characters the substitutions operate on the 197-character
prefix plus "..." — and on the example input the output contains
`[REDACTED]` and never `abc123xyz`; but the output of a long input need not
end with the marker, because a later substitution can rewrite the truncated
tail (it does end with the marker when no substitution touches it, as the
300-character example shows). -/
theorem sanitizeErrorMessage_amended :
    (∀ msg : String, msg.data.length > 200 →
      sanitizeErrorMessage msg = ⟨substitutionPipeline (msg.data.take 197 ++ "...".data)⟩) ∧
    (strHas (sanitizeErrorMessage "Failed with token abc123xyz") "[REDACTED]" = true ∧
     strHas (sanitizeErrorMessage "Failed with token abc123xyz") "abc123xyz" = false) ∧
    (sanitizeErrorMessage ⟨List.replicate 300 'a'⟩ = "[REDACTED]..." ∧
     strEnds (sanitizeErrorMessage ⟨List.replicate 300 'a'⟩) "..." = true) := by
  refine ⟨?_, ⟨by decide, by decide⟩, ⟨by decide, by decide⟩⟩
  intro msg h
  have hne : msg ≠ "" := by
    intro he
    subst he
    simp at h
  unfold sanitizeErrorMessage truncate200
  rw [if_neg hne, if_pos h]

/-- Witness for C8 (amended): the truncation-before-substitution part applied
to a concrete 201-character message. -/
theorem sanitizeErrorMessage_amended_witness :
    sanitizeErrorMessage ⟨List.replicate 201 'b'⟩
      = ⟨substitutionPipeline ((List.replicate 201 'b').take 197 ++ "...".data)⟩ :=
  sanitizeErrorMessage_amended.1 ⟨List.replicate 201 'b'⟩ (by decide)

/-! ## AuditLogger: canonical JSON serialization (services/audit-logger.ts) -/

/-- Lowercase hexadecimal digit, as `JSON.stringify` emits in `\u00XX`. -/
def hexDigitCh (n : Nat) : Char :=
  if n < 10 then Char.ofNat (48 + n) else Char.ofNat (87 + n)

/-- The two-character JSON escapes: the escaped character mapped to the
character following the backslash. -/
def escSnd? (c : Char) : Option Char :=
  if c = '"' then some '"'
  else if c = '\\' then some '\\'
  else if c = Char.ofNat 8 then some 'b'
  else if c = '\t' then some 't'
  else if c = '\n' then some 'n'
  else if c = Char.ofNat 12 then some 'f'
  else if c = '\r' then some 'r'
  else none

/-- JSON string-character escaping as `JSON.stringify` performs it: named
escapes, `\u00XX` for other control characters, everything else verbatim. -/
def escChar (c : Char) : List Char :=
  match escSnd? c with
  | some x => ['\\', x]
  | none =>
    if c.toNat < 32 then
      ['\\', 'u', '0', '0', hexDigitCh (c.toNat / 16), hexDigitCh (c.toNat % 16)]
    else [c]

def escape : List Char → List Char
  | [] => []
  | c :: t => escChar c ++ escape t

/-- A JSON string literal: quote, escaped body, quote. -/
def quoteStr (l : List Char) : List Char := '"' :: (escape l ++ ['"'])

/-- Decimal digits of `n`, most significant first; `fuel` only bounds the
recursion (`n` itself always suffices since `n / 10 < n`). -/
def natDecAux : Nat → Nat → List Char
  | 0, _ => []
  | f + 1, n => if n = 0 then [] else natDecAux f (n / 10) ++ [Char.ofNat (48 + n % 10)]

/-- Decimal rendering of a natural number, as `JSON.stringify` renders an
integral JS number. -/
def natDec (n : Nat) : List Char := if n = 0 then ['0'] else natDecAux n n

/-- Decimal rendering of an integer. -/
def intDec (n : Int) : List Char :=
  if n < 0 then '-' :: natDec n.natAbs else natDec n.toNat

/- renderV: JSON.stringify of a JVal — string escaping, decimal numbers,
true/false/null literals, comma-separated arrays and objects with insertion
order, no whitespace. -/
mutual
def renderV : JVal → List Char
  | .str s => quoteStr s.data
  | .num n => intDec n
  | .bool b => if b then "true".data else "false".data
  | .null => "null".data
  | .arr xs => '[' :: (renderElems xs ++ [']'])
  | .obj fs => '{' :: (renderFields fs ++ ['}'])

def renderElems : List JVal → List Char
  | [] => []
  | [v] => renderV v
  | v :: w :: rest => renderV v ++ ',' :: renderElems (w :: rest)

def renderFields : List (String × JVal) → List Char
  | [] => []
  | [(k, v)] => quoteStr k.data ++ ':' :: renderV v
  | (k, v) :: f :: rest =>
    quoteStr k.data ++ ':' :: renderV v ++ ',' :: renderFields (f :: rest)
end

/-- The `AuditLog` record of types/index.ts: the eight stored fields plus
the integrity hash.  `result` holds one of "success" / "failure" /
"rate_limited"; the optional TS fields stay `Option`. -/
structure AuditLog where
  timestamp : String
  user_id : String
  tool_name : String
  parameters : List (String × JVal)
  result : String
  error : Option String
  sandbox_id : Option String
  execution_time_ms : Nat
  hash : String
deriving DecidableEq

/-- An optional record property of the hashed object: `JSON.stringify` omits
a property whose value is `undefined`. -/
def optFieldEnc (name : String) (v : Option String) : List Char :=
  match v with
  | none => []
  | some s => ',' :: (quoteStr name.data ++ ':' :: quoteStr s.data)

/-- The canonical serialization hashed by `AuditLogger.generateHash`:
`JSON.stringify` of the object literal with the eight stored fields in
source order (the stored `hash` itself is not part of it). -/
def serializeEntry (e : AuditLog) : List Char :=
  '{' :: (quoteStr "timestamp".data ++ ':' :: quoteStr e.timestamp.data
  ++ ',' :: (quoteStr "user_id".data ++ ':' :: quoteStr e.user_id.data)
  ++ ',' :: (quoteStr "tool_name".data ++ ':' :: quoteStr e.tool_name.data)
  ++ ',' :: (quoteStr "parameters".data ++ ':' :: renderV (.obj e.parameters))
  ++ ',' :: (quoteStr "result".data ++ ':' :: quoteStr e.result.data)
  ++ optFieldEnc "error" e.error
  ++ optFieldEnc "sandbox_id" e.sandbox_id
  ++ ',' :: (quoteStr "execution_time_ms".data ++ ':' :: natDec e.execution_time_ms)
  ++ ['}'])

/-- `AuditLogger.generateHash`, parameterized by the hash primitive
(`crypto.createHash('sha256')`, an external collaborator): the digest of the
canonical serialization. -/
def generateHash (hashFn : String → String) (e : AuditLog) : String :=
  hashFn ⟨serializeEntry e⟩

/-- `AuditLogger.verifyIntegrity`: recompute every digest from the stored
fields and compare with the stored digest; any mismatch fails. -/
def verifyIntegrity (hashFn : String → String) (entries : List AuditLog) : Bool :=
  entries.all (fun e => generateHash hashFn e == e.hash)

/-- The two observable outcomes of `AuditLogger.log`: the entry was inserted
and the routine info line logged, or the insert failed and the emergency
notifications (`logger.error` + `console.error`) were emitted instead. -/
inductive LogOutcome where
  | logged (entry : AuditLog)
  | notifiedFailure (critical : String)
deriving DecidableEq

/-- `AuditLogger.log`: build the sanitized, hashed entry and insert it; the
whole body sits in `try { … } catch { logger.error; console.error }`, so a
persistence failure is converted into the emergency notification instead of
propagating.  `persistOutcome` is the result of the fallible insert
(`stmt.run`, the only throwing step), and the `Except` result type records
whether `log` itself throws. -/
def AuditLogger.log (hashFn : String → String) (timestamp userId toolName : String)
    (parameters : List (String × JVal)) (result : String)
    (executionTimeMs : Nat) (error sandboxId : Option String)
    (persistOutcome : Except String Unit) : Except String LogOutcome :=
  let base : AuditLog :=
    { timestamp := timestamp, user_id := userId, tool_name := toolName,
      parameters := sanitizeParameters parameters, result := result,
      error := error, sandbox_id := sandboxId,
      execution_time_ms := executionTimeMs, hash := "" }
  let entry : AuditLog := { base with hash := generateHash hashFn base }
  match persistOutcome with
  | .ok _ => .ok (.logged entry)
  | .error e => .ok (.notifiedFailure ("CRITICAL: Audit logging failed: " ++ e))

/-- `e'` is `e` with exactly one stored field altered while the stored hash
is left unchanged. -/
def alteredInOneField (e e' : AuditLog) : Prop :=
  e'.hash = e.hash ∧
  ((e'.timestamp ≠ e.timestamp ∧ e'.user_id = e.user_id ∧ e'.tool_name = e.tool_name ∧
    e'.parameters = e.parameters ∧ e'.result = e.result ∧ e'.error = e.error ∧
    e'.sandbox_id = e.sandbox_id ∧ e'.execution_time_ms = e.execution_time_ms) ∨
   (e'.timestamp = e.timestamp ∧ e'.user_id ≠ e.user_id ∧ e'.tool_name = e.tool_name ∧
    e'.parameters = e.parameters ∧ e'.result = e.result ∧ e'.error = e.error ∧
    e'.sandbox_id = e.sandbox_id ∧ e'.execution_time_ms = e.execution_time_ms) ∨
   (e'.timestamp = e.timestamp ∧ e'.user_id = e.user_id ∧ e'.tool_name ≠ e.tool_name ∧
    e'.parameters = e.parameters ∧ e'.result = e.result ∧ e'.error = e.error ∧
    e'.sandbox_id = e.sandbox_id ∧ e'.execution_time_ms = e.execution_time_ms) ∨
   (e'.timestamp = e.timestamp ∧ e'.user_id = e.user_id ∧ e'.tool_name = e.tool_name ∧
    e'.parameters ≠ e.parameters ∧ e'.result = e.result ∧ e'.error = e.error ∧
    e'.sandbox_id = e.sandbox_id ∧ e'.execution_time_ms = e.execution_time_ms) ∨
   (e'.timestamp = e.timestamp ∧ e'.user_id = e.user_id ∧ e'.tool_name = e.tool_name ∧
    e'.parameters = e.parameters ∧ e'.result ≠ e.result ∧ e'.error = e.error ∧
    e'.sandbox_id = e.sandbox_id ∧ e'.execution_time_ms = e.execution_time_ms) ∨
   (e'.timestamp = e.timestamp ∧ e'.user_id = e.user_id ∧ e'.tool_name = e.tool_name ∧
    e'.parameters = e.parameters ∧ e'.result = e.result ∧ e'.error ≠ e.error ∧
    e'.sandbox_id = e.sandbox_id ∧ e'.execution_time_ms = e.execution_time_ms) ∨
   (e'.timestamp = e.timestamp ∧ e'.user_id = e.user_id ∧ e'.tool_name = e.tool_name ∧
    e'.parameters = e.parameters ∧ e'.result = e.result ∧ e'.error = e.error ∧
    e'.sandbox_id ≠ e.sandbox_id ∧ e'.execution_time_ms = e.execution_time_ms) ∨
   (e'.timestamp = e.timestamp ∧ e'.user_id = e.user_id ∧ e'.tool_name = e.tool_name ∧
    e'.parameters = e.parameters ∧ e'.result = e.result ∧ e'.error = e.error ∧
    e'.sandbox_id = e.sandbox_id ∧ e'.execution_time_ms ≠ e.execution_time_ms))

theorem char_toNat_inj {c1 c2 : Char} (h : c1.toNat = c2.toNat) : c1 = c2 := by
  have h1 := Char.ofNat_toNat c1
  rw [h, Char.ofNat_toNat] at h1
  exact h1.symm

theorem hexDigitCh_inj {a b : Nat} (ha : a < 16) (hb : b < 16)
    (h : hexDigitCh a = hexDigitCh b) : a = b := by
  interval_cases a <;> interval_cases b <;> first | rfl | exact absurd h (by decide)

/-- The character the named escape `\x` decodes to. -/
def escFst (x : Char) : Char :=
  if x = '"' then '"'
  else if x = '\\' then '\\'
  else if x = 'b' then Char.ofNat 8
  else if x = 't' then '\t'
  else if x = 'n' then '\n'
  else if x = 'f' then Char.ofNat 12
  else '\r'

theorem escSnd?_fst {c x : Char} (h : escSnd? c = some x) : c = escFst x := by
  unfold escSnd? at h
  split_ifs at h with h1 h2 h3 h4 h5 h6 h7
  · injection h with h; subst h; subst h1; decide
  · injection h with h; subst h; subst h2; decide
  · injection h with h; subst h; subst h3; decide
  · injection h with h; subst h; subst h4; decide
  · injection h with h; subst h; subst h5; decide
  · injection h with h; subst h; subst h6; decide
  · injection h with h; subst h; subst h7; decide

theorem escSnd?_inj {c1 c2 x : Char} (h1 : escSnd? c1 = some x) (h2 : escSnd? c2 = some x) :
    c1 = c2 := by
  rw [escSnd?_fst h1, escSnd?_fst h2]

theorem escSnd?_ne_u {c x : Char} (h : escSnd? c = some x) : x ≠ 'u' := by
  unfold escSnd? at h
  split_ifs at h <;>
    (injection h with h; intro hx; rw [hx] at h; exact absurd h (by decide))

theorem escSnd?_none_ne {c : Char} (h : escSnd? c = none) : c ≠ '"' ∧ c ≠ '\\' := by
  unfold escSnd? at h
  split_ifs at h with h1 h2 h3 h4 h5 h6 h7
  exact ⟨h1, h2⟩

theorem escChar_eq_pair {c x : Char} (h : escSnd? c = some x) : escChar c = ['\\', x] := by
  unfold escChar
  rw [h]

theorem escChar_eq_u {c : Char} (h : escSnd? c = none) (hlt : c.toNat < 32) :
    escChar c = ['\\', 'u', '0', '0', hexDigitCh (c.toNat / 16), hexDigitCh (c.toNat % 16)] := by
  unfold escChar
  rw [h, if_pos hlt]

theorem escChar_eq_plain {c : Char} (h : escSnd? c = none) (hlt : ¬ c.toNat < 32) :
    escChar c = [c] := by
  unfold escChar
  rw [h, if_neg hlt]

theorem escChar_head_ne_quote (c : Char) : ∃ d t, escChar c = d :: t ∧ d ≠ '"' := by
  cases hs : escSnd? c with
  | some x => exact ⟨'\\', [x], escChar_eq_pair hs, by decide⟩
  | none =>
    by_cases hlt : c.toNat < 32
    · exact ⟨'\\', _, escChar_eq_u hs hlt, by decide⟩
    · exact ⟨c, [], escChar_eq_plain hs hlt, (escSnd?_none_ne hs).1⟩

theorem escChar_prefix_det {c1 c2 : Char} {a b : List Char}
    (h : escChar c1 ++ a = escChar c2 ++ b) : c1 = c2 ∧ a = b := by
  cases hs1 : escSnd? c1 with
  | some x1 =>
    rw [escChar_eq_pair hs1] at h
    cases hs2 : escSnd? c2 with
    | some x2 =>
      rw [escChar_eq_pair hs2] at h
      simp only [List.cons_append, List.nil_append, List.cons.injEq] at h
      obtain ⟨-, hx, hab⟩ := h
      subst hx
      exact ⟨escSnd?_inj hs1 hs2, hab⟩
    | none =>
      by_cases hlt : c2.toNat < 32
      · rw [escChar_eq_u hs2 hlt] at h
        simp only [List.cons_append, List.nil_append, List.cons.injEq] at h
        exact absurd h.2.1 (escSnd?_ne_u hs1)
      · rw [escChar_eq_plain hs2 hlt] at h
        simp only [List.cons_append, List.nil_append, List.singleton_append,
          List.cons.injEq] at h
        exact absurd h.1.symm (escSnd?_none_ne hs2).2
  | none =>
    by_cases hlt1 : c1.toNat < 32
    · rw [escChar_eq_u hs1 hlt1] at h
      cases hs2 : escSnd? c2 with
      | some x2 =>
        rw [escChar_eq_pair hs2] at h
        simp only [List.cons_append, List.nil_append, List.cons.injEq] at h
        exact absurd h.2.1.symm (escSnd?_ne_u hs2)
      | none =>
        by_cases hlt2 : c2.toNat < 32
        · rw [escChar_eq_u hs2 hlt2] at h
          simp only [List.cons_append, List.nil_append, List.cons.injEq] at h
          obtain ⟨-, -, -, -, hh, hl, hab⟩ := h
          have hhi : c1.toNat / 16 = c2.toNat / 16 := hexDigitCh_inj (by omega) (by omega) hh
          have hli : c1.toNat % 16 = c2.toNat % 16 := hexDigitCh_inj (by omega) (by omega) hl
          exact ⟨char_toNat_inj (by omega), hab⟩
        · rw [escChar_eq_plain hs2 hlt2] at h
          simp only [List.cons_append, List.nil_append, List.singleton_append,
            List.cons.injEq] at h
          exact absurd h.1.symm (escSnd?_none_ne hs2).2
    · rw [escChar_eq_plain hs1 hlt1] at h
      cases hs2 : escSnd? c2 with
      | some x2 =>
        rw [escChar_eq_pair hs2] at h
        simp only [List.singleton_append, List.cons_append, List.nil_append,
          List.cons.injEq] at h
        exact absurd h.1 (escSnd?_none_ne hs1).2
      | none =>
        by_cases hlt2 : c2.toNat < 32
        · rw [escChar_eq_u hs2 hlt2] at h
          simp only [List.singleton_append, List.cons_append, List.nil_append,
            List.cons.injEq] at h
          exact absurd h.1 (escSnd?_none_ne hs1).2
        · rw [escChar_eq_plain hs2 hlt2] at h
          simp only [List.singleton_append, List.cons.injEq] at h
          exact ⟨h.1, h.2⟩

theorem escape_quote_split : ∀ (l1 l2 t1 t2 : List Char),
    escape l1 ++ '"' :: t1 = escape l2 ++ '"' :: t2 → l1 = l2 ∧ t1 = t2 := by
  intro l1
  induction l1 with
  | nil =>
    intro l2 t1 t2 h
    cases l2 with
    | nil =>
      simp only [escape, List.nil_append, List.cons.injEq] at h
      exact ⟨rfl, h.2⟩
    | cons c r =>
      obtain ⟨d, t, hd, hne⟩ := escChar_head_ne_quote c
      simp only [escape, List.nil_append, hd, List.cons_append, List.append_assoc,
        List.cons.injEq] at h
      exact absurd h.1.symm hne
  | cons c1 r1 ih =>
    intro l2 t1 t2 h
    cases l2 with
    | nil =>
      obtain ⟨d, t, hd, hne⟩ := escChar_head_ne_quote c1
      simp only [escape, List.nil_append, hd, List.cons_append, List.append_assoc,
        List.cons.injEq] at h
      exact absurd h.1 hne
    | cons c2 r2 =>
      simp only [escape, List.append_assoc] at h
      obtain ⟨hc, hrest⟩ := escChar_prefix_det h
      obtain ⟨hr, ht⟩ := ih r2 t1 t2 hrest
      exact ⟨by rw [hc, hr], ht⟩

theorem escape_inj {l1 l2 : List Char} (h : escape l1 = escape l2) : l1 = l2 :=
  (escape_quote_split l1 l2 [] [] (by rw [h])).1

theorem quoteStr_inj {l1 l2 : List Char} (h : quoteStr l1 = quoteStr l2) : l1 = l2 := by
  unfold quoteStr at h
  simp only [List.cons.injEq] at h
  exact escape_inj (by
    have := h.2
    have h2 : escape l1 ++ '"' :: [] = escape l2 ++ '"' :: [] := by simpa using this
    exact (escape_quote_split l1 l2 [] [] h2).1 ▸ rfl)

/-- Decimal digit test `[0-9]`. -/
def isDigitCh (c : Char) : Bool := '0' ≤ c && c ≤ '9'

def decVal (l : List Char) : Nat := l.foldl (fun a c => 10 * a + (c.toNat - 48)) 0

theorem decVal_append_digit (l : List Char) (c : Char) :
    decVal (l ++ [c]) = 10 * decVal l + (c.toNat - 48) := by
  unfold decVal
  rw [List.foldl_append]
  rfl

theorem natDecAux_succ (f n : Nat) :
    natDecAux (f + 1) n
      = if n = 0 then [] else natDecAux f (n / 10) ++ [Char.ofNat (48 + n % 10)] := rfl

theorem digitCh_toNat (n : Nat) (h : n < 10) : (Char.ofNat (48 + n)).toNat = 48 + n := by
  interval_cases n <;> decide

theorem natDecAux_val : ∀ (fuel n : Nat), n ≤ fuel → decVal (natDecAux fuel n) = n := by
  intro fuel
  induction fuel with
  | zero =>
    intro n hn
    interval_cases n
    rfl
  | succ f ih =>
    intro n hn
    by_cases h0 : n = 0
    · subst h0; rfl
    · have hstep : natDecAux (f + 1) n
          = natDecAux f (n / 10) ++ [Char.ofNat (48 + n % 10)] := by
        rw [natDecAux_succ, if_neg h0]
      rw [hstep, decVal_append_digit, ih (n / 10) (by omega)]
      rw [digitCh_toNat (n % 10) (Nat.mod_lt _ (by norm_num))]
      omega

theorem natDec_val (n : Nat) : decVal (natDec n) = n := by
  unfold natDec
  by_cases h0 : n = 0
  · subst h0; rfl
  · rw [if_neg h0]
    exact natDecAux_val n n le_rfl

theorem natDec_inj {m n : Nat} (h : natDec m = natDec n) : m = n := by
  have hv := natDec_val m
  rw [h, natDec_val] at hv
  exact hv.symm

theorem natDecAux_digits : ∀ (fuel n : Nat), ∀ c ∈ natDecAux fuel n, isDigitCh c = true := by
  intro fuel
  induction fuel with
  | zero => intro n c hc; simp [natDecAux] at hc
  | succ f ih =>
    intro n c hc
    by_cases h0 : n = 0
    · subst h0; simp [natDecAux] at hc
    · rw [show natDecAux (f + 1) n
          = natDecAux f (n / 10) ++ [Char.ofNat (48 + n % 10)] by
        rw [natDecAux_succ, if_neg h0]] at hc
      rw [List.mem_append] at hc
      rcases hc with hc | hc
      · exact ih _ c hc
      · rw [List.mem_singleton] at hc
        subst hc
        have h10 : n % 10 < 10 := Nat.mod_lt _ (by norm_num)
        interval_cases h : (n % 10) <;> decide

theorem natDec_digits (n : Nat) : ∀ c ∈ natDec n, isDigitCh c = true := by
  unfold natDec
  by_cases h0 : n = 0
  · subst h0
    intro c hc
    rw [if_pos rfl, List.mem_singleton] at hc
    subst hc
    decide
  · rw [if_neg h0]
    exact natDecAux_digits n n

theorem natDec_ne_nil (n : Nat) : natDec n ≠ [] := by
  intro h
  have hv := natDec_val n
  rw [h] at hv
  have h0 : n = 0 := by simpa [decVal] using hv.symm
  subst h0
  simp [natDec] at h

/-- The continuation characters after a rendered JSON value inside a larger
rendering: end of input, a comma, or a closing bracket or brace. -/
def contOk : List Char → Prop
  | [] => True
  | c :: _ => c = ',' ∨ c = ']' ∨ c = '}'

theorem contOk_head_not_digit {s : List Char} (h : contOk s) :
    ∀ c ∈ s.head?, isDigitCh c = false := by
  intro c hc
  cases s with
  | nil => simp at hc
  | cons d t =>
    simp only [List.head?_cons, Option.mem_def, Option.some.injEq] at hc
    subst hc
    rcases h with h | h | h <;> subst h <;> decide

theorem contOk_head_not_minus {s : List Char} (h : contOk s) :
    ∀ c ∈ s.head?, c ≠ '-' := by
  intro c hc
  cases s with
  | nil => simp at hc
  | cons d t =>
    simp only [List.head?_cons, Option.mem_def, Option.some.injEq] at hc
    subst hc
    rcases h with h | h | h <;> subst h <;> decide

/-- Two digit runs followed by non-digit continuations split uniquely. -/
theorem digitRun_split : ∀ (d1 d2 s1 s2 : List Char),
    (∀ c ∈ d1, isDigitCh c = true) → (∀ c ∈ d2, isDigitCh c = true) →
    (∀ c ∈ s1.head?, isDigitCh c = false) → (∀ c ∈ s2.head?, isDigitCh c = false) →
    d1 ++ s1 = d2 ++ s2 → d1 = d2 ∧ s1 = s2 := by
  intro d1
  induction d1 with
  | nil =>
    intro d2 s1 s2 _ hd2 hs1 _ h
    cases d2 with
    | nil => exact ⟨rfl, by simpa using h⟩
    | cons c t =>
      simp only [List.nil_append, List.cons_append] at h
      subst h
      have h1 : isDigitCh c = false := hs1 c (by simp)
      have h2 : isDigitCh c = true := hd2 c (by simp)
      rw [h1] at h2
      exact absurd h2 (by simp)
  | cons c1 t1 ih =>
    intro d2 s1 s2 hd1 hd2 hs1 hs2 h
    cases d2 with
    | nil =>
      simp only [List.cons_append, List.nil_append] at h
      rw [← h] at hs2
      have h1 : isDigitCh c1 = false := hs2 c1 (by simp)
      have h2 : isDigitCh c1 = true := hd1 c1 (by simp)
      rw [h1] at h2
      exact absurd h2 (by simp)
    | cons c2 t2 =>
      simp only [List.cons_append, List.cons.injEq] at h
      obtain ⟨hc, ht⟩ := h
      obtain ⟨hteq, hseq⟩ := ih t2 s1 s2 (fun c hc => hd1 c (by simp [hc]))
        (fun c hc => hd2 c (by simp [hc])) hs1 hs2 ht
      exact ⟨by rw [hc, hteq], hseq⟩

/-- Unique splitting of a rendered integer from a non-digit continuation. -/
theorem intDec_split {n1 n2 : Int} {s1 s2 : List Char}
    (h : intDec n1 ++ s1 = intDec n2 ++ s2) (h1 : contOk s1) (h2 : contOk s2) :
    n1 = n2 ∧ s1 = s2 := by
  unfold intDec at h
  by_cases hn1 : n1 < 0
  · rw [if_pos hn1] at h
    by_cases hn2 : n2 < 0
    · rw [if_pos hn2] at h
      simp only [List.cons_append, List.cons.injEq] at h
      obtain ⟨hd, hs⟩ := digitRun_split _ _ _ _ (natDec_digits _) (natDec_digits _)
        (contOk_head_not_digit h1) (contOk_head_not_digit h2) h.2
      have habs := natDec_inj hd
      constructor
      · omega
      · exact hs
    · rw [if_neg hn2] at h
      cases hnd : natDec n2.toNat with
      | nil => exact absurd hnd (natDec_ne_nil _)
      | cons c t =>
        rw [hnd] at h
        simp only [List.cons_append, List.cons.injEq] at h
        have hdig : isDigitCh c = true := by
          have := natDec_digits n2.toNat
          rw [hnd] at this
          exact this c (by simp)
        rw [← h.1] at hdig
        exact absurd hdig (by decide)
  · rw [if_neg hn1] at h
    by_cases hn2 : n2 < 0
    · rw [if_pos hn2] at h
      cases hnd : natDec n1.toNat with
      | nil => exact absurd hnd (natDec_ne_nil _)
      | cons c t =>
        rw [hnd] at h
        simp only [List.cons_append, List.cons.injEq] at h
        have hdig : isDigitCh c = true := by
          have := natDec_digits n1.toNat
          rw [hnd] at this
          exact this c (by simp)
        rw [h.1] at hdig
        exact absurd hdig (by decide)
    · rw [if_neg hn2] at h
      obtain ⟨hd, hs⟩ := digitRun_split _ _ _ _ (natDec_digits _) (natDec_digits _)
        (contOk_head_not_digit h1) (contOk_head_not_digit h2) h
      have habs := natDec_inj hd
      constructor
      · omega
      · exact hs

def kindIdx : JVal → Nat
  | .str _ => 0
  | .num _ => 1
  | .bool _ => 2
  | .null => 3
  | .arr _ => 4
  | .obj _ => 5

/-- The value kind a rendering can start with, read off its first character. -/
def charKind (c : Char) : Nat :=
  if c = '"' then 0
  else if c = '-' ∨ isDigitCh c = true then 1
  else if c = 't' ∨ c = 'f' then 2
  else if c = 'n' then 3
  else if c = '[' then 4
  else if c = '{' then 5
  else 6

theorem kindIdx_le (v : JVal) : kindIdx v ≤ 5 := by
  cases v <;> simp [kindIdx]

theorem renderV_head (v : JVal) : ∃ c t, renderV v = c :: t ∧ charKind c = kindIdx v := by
  cases v with
  | str s => exact ⟨'"', _, rfl, by simp only [kindIdx]; decide⟩
  | num n =>
    by_cases hn : n < 0
    · refine ⟨'-', natDec n.natAbs, ?_, by simp only [kindIdx]; decide⟩
      simp [renderV, intDec, hn]
    · cases hnd : natDec n.toNat with
      | nil => exact absurd hnd (natDec_ne_nil _)
      | cons c t =>
        refine ⟨c, t, ?_, ?_⟩
        · simp [renderV, intDec, hn, hnd]
        · have hdig : isDigitCh c = true := by
            have := natDec_digits n.toNat
            rw [hnd] at this
            exact this c (by simp)
          have hnq : ¬ c = '"' := by
            intro hq; rw [hq] at hdig; exact absurd hdig (by decide)
          simp [charKind, hnq, hdig, kindIdx]
  | bool b =>
    cases b
    · exact ⟨'f', _, rfl, by simp only [kindIdx]; decide⟩
    · exact ⟨'t', _, rfl, by simp only [kindIdx]; decide⟩
  | null => exact ⟨'n', _, rfl, by simp only [kindIdx]; decide⟩
  | arr xs => exact ⟨'[', _, rfl, by simp only [kindIdx]; decide⟩
  | obj fs => exact ⟨'{', _, rfl, by simp only [kindIdx]; decide⟩

theorem renderElems_cons (v : JVal) (rest : List JVal) :
    renderElems (v :: rest)
      = renderV v ++ (match rest with
        | [] => []
        | w :: r => ',' :: renderElems (w :: r)) := by
  cases rest with
  | nil => simp [renderElems]
  | cons w r => rfl

theorem renderFields_cons (k : String) (v : JVal) (rest : List (String × JVal)) :
    renderFields ((k, v) :: rest)
      = quoteStr k.data ++ ':' :: (renderV v ++ (match rest with
        | [] => []
        | f :: r => ',' :: renderFields (f :: r))) := by
  cases rest with
  | nil => simp [renderFields]
  | cons f r => simp [renderFields]

theorem renderV_head_ne_closer {v : JVal} {c0 : Char} (h : charKind c0 = 6)
    {s : List Char} {rest : List Char} (heq : c0 :: s = renderV v ++ rest) : False := by
  obtain ⟨c, t, hvt, hk⟩ := renderV_head v
  rw [hvt] at heq
  simp only [List.cons_append, List.cons.injEq] at heq
  rw [heq.1] at h
  rw [h] at hk
  have := kindIdx_le v
  omega

/-- Splitting an element list rendering at its closing bracket, assuming the
splitting property for the member values. -/
theorem renderElems_split
    (xs1 : List JVal)
    (HV : ∀ v1 ∈ xs1, ∀ (v2 : JVal) (s1 s2 : List Char),
      renderV v1 ++ s1 = renderV v2 ++ s2 → contOk s1 → contOk s2 → v1 = v2 ∧ s1 = s2) :
    ∀ (xs2 : List JVal) (t1 t2 : List Char),
      renderElems xs1 ++ ']' :: t1 = renderElems xs2 ++ ']' :: t2 →
      xs1 = xs2 ∧ t1 = t2 := by
  induction xs1 with
  | nil =>
    intro xs2 t1 t2 h
    cases xs2 with
    | nil =>
      simp only [renderElems, List.nil_append, List.cons.injEq] at h
      exact ⟨rfl, h.2⟩
    | cons v2 r2 =>
      rw [renderElems_cons] at h
      simp only [renderElems, List.nil_append, List.append_assoc] at h
      exact absurd h (fun h => renderV_head_ne_closer (by decide) h)
  | cons v1 r1 ih =>
    intro xs2 t1 t2 h
    cases xs2 with
    | nil =>
      rw [renderElems_cons] at h
      simp only [renderElems, List.nil_append, List.append_assoc] at h
      exact absurd h.symm (fun h => renderV_head_ne_closer (by decide) h)
    | cons v2 r2 =>
      rw [renderElems_cons v1 r1, renderElems_cons v2 r2] at h
      rw [List.append_assoc, List.append_assoc] at h
      cases r1 with
      | nil =>
        cases r2 with
        | nil =>
          simp only [List.nil_append] at h
          obtain ⟨hv, hrest⟩ := HV v1 (by simp) v2 _ _ h (by simp [contOk]) (by simp [contOk])
          simp only [List.cons.injEq] at hrest
          rw [hv]
          exact ⟨rfl, hrest.2⟩
        | cons w2 rr2 =>
          simp only [List.nil_append, List.cons_append] at h
          obtain ⟨hv, hrest⟩ := HV v1 (by simp) v2 _ _ h (by simp [contOk]) (by simp [contOk])
          simp only [List.cons.injEq] at hrest
          exact absurd hrest.1 (by decide)
      | cons w1 rr1 =>
        cases r2 with
        | nil =>
          simp only [List.nil_append, List.cons_append] at h
          obtain ⟨hv, hrest⟩ := HV v1 (by simp) v2 _ _ h (by simp [contOk]) (by simp [contOk])
          simp only [List.cons.injEq] at hrest
          exact absurd hrest.1 (by decide)
        | cons w2 rr2 =>
          simp only [List.cons_append] at h
          obtain ⟨hv, hrest⟩ := HV v1 (by simp) v2 _ _ h (by simp [contOk]) (by simp [contOk])
          simp only [List.cons.injEq] at hrest
          obtain ⟨hr, ht⟩ := ih (fun v hv => HV v (by simp [hv])) (w2 :: rr2) t1 t2
            (by simpa using hrest.2)
          rw [hv, hr]
          exact ⟨rfl, ht⟩

theorem renderFields_split
    (fs1 : List (String × JVal))
    (HV : ∀ kv ∈ fs1, ∀ (v2 : JVal) (s1 s2 : List Char),
      renderV kv.2 ++ s1 = renderV v2 ++ s2 → contOk s1 → contOk s2 → kv.2 = v2 ∧ s1 = s2) :
    ∀ (fs2 : List (String × JVal)) (t1 t2 : List Char),
      renderFields fs1 ++ '}' :: t1 = renderFields fs2 ++ '}' :: t2 →
      fs1 = fs2 ∧ t1 = t2 := by
  induction fs1 with
  | nil =>
    intro fs2 t1 t2 h
    cases fs2 with
    | nil =>
      simp only [renderFields, List.nil_append, List.cons.injEq] at h
      exact ⟨rfl, h.2⟩
    | cons f2 r2 =>
      obtain ⟨k2, v2⟩ := f2
      rw [renderFields_cons] at h
      simp only [renderFields, List.nil_append, quoteStr, List.cons_append,
        List.cons.injEq] at h
      exact absurd h.1 (by decide)
  | cons f1 r1 ih =>
    intro fs2 t1 t2 h
    obtain ⟨k1, v1⟩ := f1
    cases fs2 with
    | nil =>
      rw [renderFields_cons] at h
      simp only [renderFields, List.nil_append, quoteStr, List.cons_append,
        List.cons.injEq] at h
      exact absurd h.1 (by decide)
    | cons f2 r2 =>
      obtain ⟨k2, v2⟩ := f2
      rw [renderFields_cons k1 v1 r1, renderFields_cons k2 v2 r2] at h
      cases r1 with
      | nil =>
        cases r2 with
        | nil =>
          simp only [quoteStr, List.cons_append, List.append_assoc, List.nil_append,
            List.cons.injEq, true_and] at h
          obtain ⟨hk, htail⟩ := escape_quote_split _ _ _ _ h
          have hkeq : k1 = k2 := String.ext hk
          simp only [List.cons.injEq, true_and] at htail
          obtain ⟨hv, hrest⟩ := HV (k1, v1) (by simp) v2 _ _ htail
            (by simp [contOk]) (by simp [contOk])
          simp only [List.cons.injEq, true_and] at hrest
          simp only at hv
          rw [hkeq, hv]
          exact ⟨rfl, hrest⟩
        | cons f2' rr2 =>
          simp only [quoteStr, List.cons_append, List.append_assoc, List.nil_append,
            List.cons.injEq, true_and] at h
          obtain ⟨hk, htail⟩ := escape_quote_split _ _ _ _ h
          simp only [List.cons.injEq, true_and] at htail
          obtain ⟨hv, hrest⟩ := HV (k1, v1) (by simp) v2 _ _ htail
            (by simp [contOk]) (by simp [contOk])
          simp only [List.cons.injEq] at hrest
          exact absurd hrest.1 (by decide)
      | cons f1' rr1 =>
        cases r2 with
        | nil =>
          simp only [quoteStr, List.cons_append, List.append_assoc, List.nil_append,
            List.cons.injEq, true_and] at h
          obtain ⟨hk, htail⟩ := escape_quote_split _ _ _ _ h
          simp only [List.cons.injEq, true_and] at htail
          obtain ⟨hv, hrest⟩ := HV (k1, v1) (by simp) v2 _ _ htail
            (by simp [contOk]) (by simp [contOk])
          simp only [List.cons.injEq] at hrest
          exact absurd hrest.1 (by decide)
        | cons f2' rr2 =>
          simp only [quoteStr, List.cons_append, List.append_assoc, List.nil_append,
            List.cons.injEq, true_and] at h
          obtain ⟨hk, htail⟩ := escape_quote_split _ _ _ _ h
          have hkeq : k1 = k2 := String.ext hk
          simp only [List.cons.injEq, true_and] at htail
          obtain ⟨hv, hrest⟩ := HV (k1, v1) (by simp) v2 _ _ htail
            (by simp [contOk]) (by simp [contOk])
          simp only [List.cons.injEq, true_and] at hrest
          obtain ⟨hr, ht⟩ := ih (fun kv hkv => HV kv (by simp [hkv])) (f2' :: rr2) t1 t2
            (by simpa using hrest)
          simp only at hv
          rw [hkeq, hv, hr]
          exact ⟨rfl, ht⟩

theorem jval_sizeOf_pos (v : JVal) : 1 ≤ sizeOf v := by
  cases v <;> simp

theorem renderV_split_bounded : ∀ N : Nat, ∀ v1 : JVal, sizeOf v1 ≤ N →
    ∀ (v2 : JVal) (s1 s2 : List Char),
      renderV v1 ++ s1 = renderV v2 ++ s2 → contOk s1 → contOk s2 → v1 = v2 ∧ s1 = s2 := by
  intro N
  induction N with
  | zero =>
    intro v1 h
    have := jval_sizeOf_pos v1
    omega
  | succ N ih =>
    intro v1 hsz v2 s1 s2 heq hc1 hc2
    have hkind : kindIdx v1 = kindIdx v2 := by
      obtain ⟨c1, t1, e1, k1⟩ := renderV_head v1
      obtain ⟨c2, t2, e2, k2⟩ := renderV_head v2
      rw [e1, e2] at heq
      simp only [List.cons_append, List.cons.injEq] at heq
      rw [← k1, ← k2, heq.1]
    cases v1 with
    | str a =>
      cases v2 with
      | str b =>
        simp only [renderV, quoteStr, List.cons_append, List.append_assoc,
          List.singleton_append, List.cons.injEq, true_and] at heq
        obtain ⟨hab, hs⟩ := escape_quote_split _ _ _ _ heq
        exact ⟨by rw [String.ext hab], by simpa using hs⟩
      | num n => exact absurd hkind (by simp [kindIdx])
      | bool b => exact absurd hkind (by simp [kindIdx])
      | null => exact absurd hkind (by simp [kindIdx])
      | arr xs => exact absurd hkind (by simp [kindIdx])
      | obj fs => exact absurd hkind (by simp [kindIdx])
    | num n1 =>
      cases v2 with
      | num n2 =>
        simp only [renderV] at heq
        obtain ⟨hn, hs⟩ := intDec_split heq hc1 hc2
        exact ⟨by rw [hn], hs⟩
      | str b => exact absurd hkind (by simp [kindIdx])
      | bool b => exact absurd hkind (by simp [kindIdx])
      | null => exact absurd hkind (by simp [kindIdx])
      | arr xs => exact absurd hkind (by simp [kindIdx])
      | obj fs => exact absurd hkind (by simp [kindIdx])
    | bool b1 =>
      cases v2 with
      | bool b2 =>
        cases b1 <;> cases b2 <;> simp only [renderV, if_true, if_false] at heq
        · exact ⟨rfl, List.append_cancel_left heq⟩
        · simp at heq
        · simp at heq
        · exact ⟨rfl, List.append_cancel_left heq⟩
      | str b => exact absurd hkind (by simp [kindIdx])
      | num n => exact absurd hkind (by simp [kindIdx])
      | null => exact absurd hkind (by simp [kindIdx])
      | arr xs => exact absurd hkind (by simp [kindIdx])
      | obj fs => exact absurd hkind (by simp [kindIdx])
    | null =>
      cases v2 with
      | null =>
        simp only [renderV] at heq
        exact ⟨rfl, List.append_cancel_left heq⟩
      | str b => exact absurd hkind (by simp [kindIdx])
      | num n => exact absurd hkind (by simp [kindIdx])
      | bool b => exact absurd hkind (by simp [kindIdx])
      | arr xs => exact absurd hkind (by simp [kindIdx])
      | obj fs => exact absurd hkind (by simp [kindIdx])
    | arr xs1 =>
      cases v2 with
      | arr xs2 =>
        simp only [renderV, List.cons_append, List.append_assoc, List.singleton_append,
          List.cons.injEq, true_and] at heq
        have HV : ∀ v1 ∈ xs1, ∀ (v2 : JVal) (s1 s2 : List Char),
            renderV v1 ++ s1 = renderV v2 ++ s2 → contOk s1 → contOk s2 →
            v1 = v2 ∧ s1 = s2 := by
          intro v hv
          have h1 := List.sizeOf_lt_of_mem hv
          have h2 : sizeOf (JVal.arr xs1) = 1 + sizeOf xs1 := by simp
          exact ih v (by omega)
        obtain ⟨hx, hs⟩ := renderElems_split xs1 HV xs2 s1 s2 heq
        exact ⟨by rw [hx], hs⟩
      | str b => exact absurd hkind (by simp [kindIdx])
      | num n => exact absurd hkind (by simp [kindIdx])
      | bool b => exact absurd hkind (by simp [kindIdx])
      | null => exact absurd hkind (by simp [kindIdx])
      | obj fs => exact absurd hkind (by simp [kindIdx])
    | obj fs1 =>
      cases v2 with
      | obj fs2 =>
        simp only [renderV, List.cons_append, List.append_assoc, List.singleton_append,
          List.cons.injEq, true_and] at heq
        have HV : ∀ kv ∈ fs1, ∀ (v2 : JVal) (s1 s2 : List Char),
            renderV kv.2 ++ s1 = renderV v2 ++ s2 → contOk s1 → contOk s2 →
            kv.2 = v2 ∧ s1 = s2 := by
          intro kv hkv
          obtain ⟨k, v⟩ := kv
          have h1 := List.sizeOf_lt_of_mem hkv
          have h2 : sizeOf (JVal.obj fs1) = 1 + sizeOf fs1 := by simp
          have h3 : sizeOf (k, v) = 1 + sizeOf k + sizeOf v := by simp
          exact ih v (by omega)
        obtain ⟨hx, hs⟩ := renderFields_split fs1 HV fs2 s1 s2 heq
        exact ⟨by rw [hx], hs⟩
      | str b => exact absurd hkind (by simp [kindIdx])
      | num n => exact absurd hkind (by simp [kindIdx])
      | bool b => exact absurd hkind (by simp [kindIdx])
      | null => exact absurd hkind (by simp [kindIdx])
      | arr xs => exact absurd hkind (by simp [kindIdx])

/-- Injectivity of the JSON rendering. -/
theorem renderV_inj {v1 v2 : JVal} (h : renderV v1 = renderV v2) : v1 = v2 :=
  (renderV_split_bounded (sizeOf v1) v1 le_rfl v2 [] []
    (by simpa using h) trivial trivial).1

theorem optFieldEnc_inj {name : String} {o1 o2 : Option String}
    (h : optFieldEnc name o1 = optFieldEnc name o2) : o1 = o2 := by
  cases o1 with
  | none =>
    cases o2 with
    | none => rfl
    | some s2 => simp [optFieldEnc] at h
  | some s1 =>
    cases o2 with
    | none => simp [optFieldEnc] at h
    | some s2 =>
      simp only [optFieldEnc, List.cons.injEq, true_and, List.append_assoc] at h
      have h2 := (List.append_right_inj _).mp h
      simp only [List.cons.injEq, true_and] at h2
      rw [String.ext (quoteStr_inj h2)]

theorem serializeEntry_ne {e ee : AuditLog} (h : alteredInOneField e ee) :
    serializeEntry ee ≠ serializeEntry e := by
  intro hser
  obtain ⟨hhash, hcase⟩ := h
  rcases hcase with ⟨hne, h2, h3, h4, h5, h6, h7, h8⟩ |
    ⟨h1, hne, h3, h4, h5, h6, h7, h8⟩ |
    ⟨h1, h2, hne, h4, h5, h6, h7, h8⟩ |
    ⟨h1, h2, h3, hne, h5, h6, h7, h8⟩ |
    ⟨h1, h2, h3, h4, hne, h6, h7, h8⟩ |
    ⟨h1, h2, h3, h4, h5, hne, h7, h8⟩ |
    ⟨h1, h2, h3, h4, h5, h6, hne, h8⟩ |
    ⟨h1, h2, h3, h4, h5, h6, h7, hne⟩
  · rw [serializeEntry, serializeEntry, h2, h3, h4, h5, h6, h7, h8] at hser
    simp only [List.cons.injEq, true_and, List.append_assoc, List.append_right_inj,
      List.append_left_inj] at hser
    exact hne (String.ext (quoteStr_inj hser))
  · rw [serializeEntry, serializeEntry, h1, h3, h4, h5, h6, h7, h8] at hser
    simp only [List.cons.injEq, true_and, List.append_assoc, List.append_right_inj,
      List.append_left_inj] at hser
    exact hne (String.ext (quoteStr_inj hser))
  · rw [serializeEntry, serializeEntry, h1, h2, h4, h5, h6, h7, h8] at hser
    simp only [List.cons.injEq, true_and, List.append_assoc, List.append_right_inj,
      List.append_left_inj] at hser
    exact hne (String.ext (quoteStr_inj hser))
  · rw [serializeEntry, serializeEntry, h1, h2, h3, h5, h6, h7, h8] at hser
    simp only [List.cons.injEq, true_and, List.append_assoc, List.append_right_inj,
      List.append_left_inj] at hser
    have hobj := renderV_inj hser
    injection hobj with hp
    exact hne hp
  · rw [serializeEntry, serializeEntry, h1, h2, h3, h4, h6, h7, h8] at hser
    simp only [List.cons.injEq, true_and, List.append_assoc, List.append_right_inj,
      List.append_left_inj] at hser
    exact hne (String.ext (quoteStr_inj hser))
  · rw [serializeEntry, serializeEntry, h1, h2, h3, h4, h5, h7, h8] at hser
    simp only [List.cons.injEq, true_and, List.append_assoc, List.append_right_inj,
      List.append_left_inj] at hser
    exact hne (optFieldEnc_inj hser)
  · rw [serializeEntry, serializeEntry, h1, h2, h3, h4, h5, h6, h8] at hser
    simp only [List.cons.injEq, true_and, List.append_assoc, List.append_right_inj,
      List.append_left_inj] at hser
    exact hne (optFieldEnc_inj hser)
  · rw [serializeEntry, serializeEntry, h1, h2, h3, h4, h5, h6, h7] at hser
    simp only [List.cons.injEq, true_and, List.append_assoc, List.append_right_inj,
      List.append_left_inj] at hser
    exact hne (natDec_inj hser)

/-- C4.  With the hash primitive idealized as injective (collision-free),
`verifyIntegrity` holds on any set of records whose stored fields are
unaltered since their digest was generated, and fails on any set containing
a record in which one stored field was altered while the stored digest was
left unchanged: the canonical serialization is injective field by field
(JSON escaping, decimal rendering and the value rendering are all proven
injective above), so the recomputed digest cannot match. -/
theorem verifyIntegrity_spec :
    (∀ (hashFn : String → String) (entries : List AuditLog),
      (∀ e ∈ entries, e.hash = generateHash hashFn e) →
      verifyIntegrity hashFn entries = true) ∧
    (∀ hashFn : String → String, Function.Injective hashFn →
      ∀ e ee : AuditLog, e.hash = generateHash hashFn e →
        alteredInOneField e ee →
        ∀ entries : List AuditLog, ee ∈ entries →
          verifyIntegrity hashFn entries = false) := by
  constructor
  · intro hashFn entries h
    unfold verifyIntegrity
    rw [List.all_eq_true]
    intro e he
    simp [h e he]
  · intro hashFn hinj e ee hhash halt entries hmem
    have hne : ¬ generateHash hashFn ee = ee.hash := by
      intro habs
      have h1 : hashFn ⟨serializeEntry ee⟩ = hashFn ⟨serializeEntry e⟩ := by
        have hh : ee.hash = e.hash := halt.1
        rw [show hashFn ⟨serializeEntry ee⟩ = generateHash hashFn ee from rfl, habs, hh, hhash]
        rfl
      have h2 := hinj h1
      have h3 : serializeEntry ee = serializeEntry e := congrArg String.data h2
      exact serializeEntry_ne halt h3
    cases hall : verifyIntegrity hashFn entries with
    | false => rfl
    | true =>
      exfalso
      unfold verifyIntegrity at hall
      rw [List.all_eq_true] at hall
      have hx := hall ee hmem
      rw [beq_iff_eq] at hx
      exact hne hx

def c4entryBase : AuditLog :=
  ⟨"2024-01-01T00:00:00.000Z", "user-1", "create_sandbox",
   [("project_name", JVal.str "demo")], "success", none, none, 5, ""⟩

/-- The base entry with its correctly generated digest (identity hash). -/
def c4entry : AuditLog := { c4entryBase with hash := ⟨serializeEntry c4entryBase⟩ }

/-- The entry with a single stored field altered and the digest untouched. -/
def c4altered : AuditLog := { c4entry with user_id := "user-2" }

/-- Witness for C4: with the identity hash, a concrete well-formed record
verifies, and altering its user_id while keeping the digest makes
verification fail. -/
theorem verifyIntegrity_spec_witness :
    verifyIntegrity id [c4entry] = true ∧ verifyIntegrity id [c4altered] = false := by
  constructor
  · refine verifyIntegrity_spec.1 id [c4entry] ?_
    intro e he
    rw [List.mem_singleton] at he
    subst he
    rfl
  · refine verifyIntegrity_spec.2 id (fun a b hab => hab) c4entry c4altered rfl
      ?_ [c4altered] (by simp)
    exact ⟨rfl, Or.inr (Or.inl ⟨rfl, by decide, rfl, rfl, rfl, rfl, rfl, rfl⟩)⟩

/-- C9.  `AuditLogger.log` returns normally for every input and every
outcome of the persistence step: a failed insert is caught and surfaced as
the emergency notification (a channel separate from the ledger), and a
successful insert stores the sanitized, digest-carrying entry. -/
theorem auditLog_never_throws
    (hashFn : String → String) (timestamp userId toolName : String)
    (parameters : List (String × JVal)) (result : String)
    (executionTimeMs : Nat) (error sandboxId : Option String)
    (persistOutcome : Except String Unit) :
    (AuditLogger.log hashFn timestamp userId toolName parameters result
      executionTimeMs error sandboxId persistOutcome).isOk = true ∧
    (∀ msg, persistOutcome = .error msg →
      AuditLogger.log hashFn timestamp userId toolName parameters result
        executionTimeMs error sandboxId persistOutcome
        = .ok (.notifiedFailure ("CRITICAL: Audit logging failed: " ++ msg))) ∧
    (persistOutcome = .ok () →
      ∃ entry : AuditLog,
        AuditLogger.log hashFn timestamp userId toolName parameters result
          executionTimeMs error sandboxId persistOutcome = .ok (.logged entry) ∧
        entry.parameters = sanitizeParameters parameters ∧
        entry.hash = generateHash hashFn entry) := by
  cases persistOutcome with
  | ok u =>
    cases u
    refine ⟨rfl, ?_, ?_⟩
    · intro msg h
      exact absurd h (by simp)
    · intro _
      exact ⟨_, rfl, rfl, rfl⟩
  | error msg0 =>
    refine ⟨rfl, ?_, ?_⟩
    · intro msg h
      injection h with h
      subst h
      rfl
    · intro h
      exact absurd h (by simp)

/-- Witness for C9 at a concrete failing insert. -/
theorem auditLog_never_throws_witness :
    (AuditLogger.log id "2024-01-01T00:00:00.000Z" "user-1" "create_sandbox"
      [("token", JVal.str "tok")] "failure" 7 none none (.error "disk full")).isOk = true ∧
    AuditLogger.log id "2024-01-01T00:00:00.000Z" "user-1" "create_sandbox"
      [("token", JVal.str "tok")] "failure" 7 none none (.error "disk full")
      = .ok (.notifiedFailure ("CRITICAL: Audit logging failed: " ++ "disk full")) := by
  have h := auditLog_never_throws id "2024-01-01T00:00:00.000Z" "user-1" "create_sandbox"
    [("token", JVal.str "tok")] "failure" 7 none none (.error "disk full")
  exact ⟨h.1, h.2.1 "disk full" rfl⟩
